import Mathlib

/-!
Verification of the BetaGomoku engine core: a shallow embedding of the
board primitives (`betagomoku/game/board.py`, `types.py`) and of the
advanced search agent (`betagomoku/agent/advanced_agent.py`), together
with theorems settling the specification claims.

Python mutation is modelled by explicit state passing: every operation
that mutates `GomokuGameState` takes the state and returns the new
state.  Python `assert` failures (contract violations) are modelled by
`Option`: a function returns `none` exactly when the Python code would
raise an `AssertionError`.  Unbounded `while` loops that walk along a
board axis are given fuel `16`: a walk continues only over on-grid
points, the coordinates move by one per step, and the grid is 15 wide,
so every such loop breaks within 15 steps and the fuelled function
agrees with the loop.
-/

namespace BetaGomoku

/-- `Player` from `betagomoku/game/types.py`. -/
inductive Player where
  | black : Player
  | white : Player
deriving DecidableEq, Repr

/-- `Player.other` from `types.py`. -/
def Player.other : Player → Player
  | .black => .white
  | .white => .black

/-- `Point` from `types.py` (a pair of Python ints, 1-indexed). -/
structure Point where
  row : Int
  col : Int
deriving DecidableEq, Repr

/-- `Move` from `board.py`. -/
structure Move where
  point : Point
  player : Player
deriving DecidableEq, Repr

/-- The board's `_grid` dict, as an insertion-ordered association list. -/
abbrev Grid := List (Point × Player)

/-- `BOARD_SIZE` from `board.py`. -/
def BOARD_SIZE : Int := 15

/-- `WIN_LENGTH` from `board.py`. -/
def WIN_LENGTH : Nat := 5

/-- `Board.get`: dict lookup. -/
def lookupGrid : Grid → Point → Option Player
  | [], _ => none
  | (q, pl) :: rest, p => if q = p then some pl else lookupGrid rest p

/-- `Board.is_empty`. -/
def gridIsEmptyAt (g : Grid) (p : Point) : Bool :=
  (lookupGrid g p).isNone

/-- `Board.is_on_grid`. -/
def isOnGrid (p : Point) : Bool :=
  (1 ≤ p.row && p.row ≤ BOARD_SIZE) && (1 ≤ p.col && p.col ≤ BOARD_SIZE)

/-- `Board.place` (the `assert is_empty` is handled by the caller `apply_move`,
    which already asserts emptiness). Python dict insertion appends the new key. -/
def placeStone (g : Grid) (p : Point) (pl : Player) : Grid :=
  g ++ [(p, pl)]

/-- `Board.remove`: `del` of the (unique) entry with this key. -/
def removeStone (g : Grid) (p : Point) : Grid :=
  g.eraseP (fun e => decide (e.1 = p))

/-- `GomokuGameState` from `board.py`. -/
structure GameState where
  grid : Grid
  current_player : Player
  moves : List Move
  winner : Option Player
  is_over : Bool
deriving DecidableEq, Repr

/-- The fresh state built by `GomokuGameState.__init__`. -/
def initialState : GameState :=
  { grid := [], current_player := .black, moves := [], winner := none, is_over := false }

/-- One step of the bounded scanning loops in `_check_win`: starting at `cur`,
    count consecutive `pl` stones in direction `d`, stopping at the first
    off-grid or non-`pl` cell, and return the count together with the cell at
    which the loop stopped.  `fuel` bounds the number of iterations: the
    `for step in range(1, WIN_LENGTH)` loops use fuel 4, the unbounded `while`
    walks use fuel 16 (they leave the 15-wide grid within 15 steps). -/
def loopScan (g : Grid) (pl : Player) (d : Int × Int) : Point → Nat → Nat × Point
  | cur, 0 => (0, cur)
  | cur, fuel + 1 =>
    if isOnGrid cur && (lookupGrid g cur == some pl) then
      let rest := loopScan g pl d ⟨cur.row + d.1, cur.col + d.2⟩ fuel
      (rest.1 + 1, rest.2)
    else
      (0, cur)

/-- The four direction axes (`DIRECTIONS` in `advanced_agent.py`, and the
    `directions` list inside `_check_win`). -/
def DIRECTIONS : List (Int × Int) := [(0, 1), (1, 0), (1, 1), (1, -1)]

/-- `GomokuGameState._check_win`: does placing at `point` (already on the
    board `g`) create 5-in-a-row for `player`?  Each direction counts at most
    `WIN_LENGTH - 1 = 4` steps forward and 4 backward. -/
def check_win (g : Grid) (point : Point) (player : Player) : Bool :=
  DIRECTIONS.any fun d =>
    let fwd := (loopScan g player d ⟨point.row + d.1, point.col + d.2⟩ 4).1
    let bwd := (loopScan g player (-d.1, -d.2) ⟨point.row - d.1, point.col - d.2⟩ 4).1
    1 + fwd + bwd ≥ WIN_LENGTH

/-- All 225 points, in the order generated by `legal_moves`'s comprehension. -/
def allPoints : List Point :=
  (List.range 15).flatMap fun (r : Nat) => (List.range 15).map fun (c : Nat) =>
    ⟨(r : Int) + 1, (c : Int) + 1⟩

/-- `GomokuGameState.legal_moves`. -/
def legal_moves (s : GameState) : List Point :=
  if s.is_over then []
  else allPoints.filter fun p => gridIsEmptyAt s.grid p

/-- `GomokuGameState.apply_move`.  Returns `none` when one of the three
    `assert`s fires (game over, off the grid, occupied). -/
def apply_move (s : GameState) (point : Point) : Option GameState :=
  if s.is_over then none
  else if !isOnGrid point then none
  else if !gridIsEmptyAt s.grid point then none
  else if check_win (placeStone s.grid point s.current_player) point s.current_player then
    some { grid := placeStone s.grid point s.current_player,
           current_player := s.current_player.other,
           moves := s.moves ++ [⟨point, s.current_player⟩],
           winner := some s.current_player, is_over := true }
  else if (placeStone s.grid point s.current_player).length = 15 * 15 then
    some { grid := placeStone s.grid point s.current_player,
           current_player := s.current_player.other,
           moves := s.moves ++ [⟨point, s.current_player⟩],
           winner := s.winner, is_over := true }
  else
    some { grid := placeStone s.grid point s.current_player,
           current_player := s.current_player.other,
           moves := s.moves ++ [⟨point, s.current_player⟩],
           winner := s.winner, is_over := s.is_over }

/-- `GomokuGameState.undo_move`.  Returns the new state and the undone move
    (`none` when the history is empty; the state is then unchanged). -/
def undo_move (s : GameState) : GameState × Option Move :=
  match s.moves.getLast? with
  | none => (s, none)
  | some m =>
    ({ grid := removeStone s.grid m.point,
       current_player := m.player,
       moves := s.moves.dropLast,
       winner := none,
       is_over := false }, some m)

/-- The point `k` steps from `p` in direction `d`. -/
def stepPoint (p : Point) (d : Int × Int) (k : Int) : Point :=
  ⟨p.row + d.1 * k, p.col + d.2 * k⟩

/-- The placed stone at `p` lies on a (possibly overlong) run of at least 5
    consecutive `pl` stones on the board along one of the four axes:
    `a` stones ahead of `p` and `b` behind, all on the grid. -/
def HasWinRunAt (g : Grid) (p : Point) (pl : Player) : Prop :=
  ∃ d ∈ DIRECTIONS, ∃ a b : Nat, 5 ≤ a + b + 1 ∧
    ∀ k : Int, -(b : Int) ≤ k → k ≤ (a : Int) →
      isOnGrid (stepPoint p d k) = true ∧ lookupGrid g (stepPoint p d k) = some pl

/-- Well-formedness invariant of a game state, as maintained by the Python
    code: the grid dict mirrors the move list, move points are distinct and
    on the grid, and a winner is only recorded on a terminal position. -/
def WF (s : GameState) : Prop :=
  s.grid = s.moves.map (fun m => (m.point, m.player)) ∧
  (s.moves.map (fun m => m.point)).Nodup ∧
  (∀ m ∈ s.moves, isOnGrid m.point = true) ∧
  (s.is_over = false → s.winner = none)

/-! ## Basic lemmas about the board primitives -/

@[simp]
theorem Player.other_other (pl : Player) : pl.other.other = pl := by
  cases pl <;> rfl

theorem lookupGrid_eq_none_iff (g : Grid) (p : Point) :
    lookupGrid g p = none ↔ ∀ e ∈ g, e.1 ≠ p := by
  induction g with
  | nil => simp [lookupGrid]
  | cons e rest ih =>
    by_cases h : e.1 = p
    · simp [lookupGrid, h]
    · simp [lookupGrid, h, ih]

theorem removeStone_append (g : Grid) (p : Point) (pl : Player)
    (h : lookupGrid g p = none) : removeStone (g ++ [(p, pl)]) p = g := by
  induction g with
  | nil => simp [removeStone, List.eraseP]
  | cons e rest ih =>
    rw [lookupGrid_eq_none_iff] at h
    have he : e.1 ≠ p := h e (by simp)
    have hrest : lookupGrid rest p = none := by
      rw [lookupGrid_eq_none_iff]
      exact fun e' he' => h e' (by simp [he'])
    have := ih hrest
    simp only [removeStone] at this ⊢
    simp [List.eraseP_cons, he, this]

theorem lookupGrid_moves_eq_none_iff (ms : List Move) (p : Point) :
    lookupGrid (ms.map fun m => (m.point, m.player)) p = none ↔
      ∀ m ∈ ms, m.point ≠ p := by
  rw [lookupGrid_eq_none_iff]
  constructor
  · intro h m hm
    exact h (m.point, m.player) (List.mem_map_of_mem _ hm)
  · intro h e he
    obtain ⟨m, hm, rfl⟩ := List.mem_map.mp he
    exact h m hm

/-- The shape of a successful `apply_move`: the asserts hold and the result
    is the state with the stone placed, the move pushed, turn flipped, and
    terminal bookkeeping updated. -/
theorem apply_move_eq_some (s : GameState) (p : Point) (s' : GameState)
    (h : apply_move s p = some s') :
    s.is_over = false ∧ isOnGrid p = true ∧ gridIsEmptyAt s.grid p = true ∧
    s'.grid = placeStone s.grid p s.current_player ∧
    s'.moves = s.moves ++ [⟨p, s.current_player⟩] ∧
    s'.current_player = s.current_player.other ∧
    ((check_win (placeStone s.grid p s.current_player) p s.current_player = true ∧
        s'.winner = some s.current_player ∧ s'.is_over = true) ∨
     (check_win (placeStone s.grid p s.current_player) p s.current_player = false ∧
        s'.winner = s.winner ∧
        ((placeStone s.grid p s.current_player).length = 15 * 15 ∧ s'.is_over = true ∨
         (placeStone s.grid p s.current_player).length ≠ 15 * 15 ∧ s'.is_over = s.is_over))) := by
  unfold apply_move at h
  split at h
  · exact absurd h (by simp)
  · split at h
    · exact absurd h (by simp)
    · split at h
      · exact absurd h (by simp)
      · rename_i hov hgrid hemp
        refine ⟨by simpa using hov, by simpa using hgrid, by simpa using hemp, ?_⟩
        split at h
        · rename_i hwin
          cases h
          exact ⟨rfl, rfl, rfl, Or.inl ⟨hwin, rfl, rfl⟩⟩
        · rename_i hwin
          split at h
          · rename_i hfull
            cases h
            exact ⟨rfl, rfl, rfl,
              Or.inr ⟨by simpa using hwin, rfl, Or.inl ⟨hfull, rfl⟩⟩⟩
          · rename_i hfull
            cases h
            exact ⟨rfl, rfl, rfl,
              Or.inr ⟨by simpa using hwin, rfl, Or.inr ⟨hfull, rfl⟩⟩⟩

/-- `apply_move` preserves the state invariant. -/
theorem WF_apply (s : GameState) (p : Point) (s' : GameState)
    (hwf : WF s) (h : apply_move s p = some s') : WF s' := by
  obtain ⟨hg, hnd, hon, hwin⟩ := hwf
  obtain ⟨hov, hgrid, hemp, hg', hm', _, hcase⟩ := apply_move_eq_some s p s' h
  have hnotin : ∀ m ∈ s.moves, m.point ≠ p := by
    rw [← lookupGrid_moves_eq_none_iff, ← hg]
    simpa [gridIsEmptyAt, Option.isNone_iff_eq_none] using hemp
  refine ⟨?_, ?_, ?_, ?_⟩
  · rw [hg', hm', hg, placeStone, List.map_append]
    rfl
  · rw [hm', List.map_append]
    simp only [List.map_cons, List.map_nil]
    rw [List.nodup_append]
    refine ⟨hnd, List.nodup_singleton _, ?_⟩
    intro q hq
    obtain ⟨m, hm, rfl⟩ := List.mem_map.mp hq
    simpa using (hnotin m hm)
  · rw [hm']
    intro m hm
    rcases List.mem_append.mp hm with h1 | h1
    · exact hon m h1
    · simp at h1
      subst h1
      exact hgrid
  · rcases hcase with ⟨_, _, hov'⟩ | ⟨_, hw', hsub⟩
    · intro hcontr
      rw [hov'] at hcontr
      cases hcontr
    · rcases hsub with ⟨_, hov'⟩ | ⟨_, hov'⟩
      · intro hcontr
        rw [hov'] at hcontr
        cases hcontr
      · intro _
        rw [hw']
        exact hwin hov

theorem moves_eq_concat_of_getLast?_eq_some (l : List Move) (m : Move)
    (h : l.getLast? = some m) : l = l.dropLast ++ [m] :=
  (List.dropLast_append_getLast? m (Option.mem_def.mpr h)).symm

/-- `undo_move` preserves the state invariant. -/
theorem WF_undo (s : GameState) (hwf : WF s) : WF (undo_move s).1 := by
  obtain ⟨hg, hnd, hon, hwc⟩ := hwf
  unfold undo_move
  cases hlast : s.moves.getLast? with
  | none => exact ⟨hg, hnd, hon, hwc⟩
  | some m =>
    have hsplit : s.moves = s.moves.dropLast ++ [m] :=
      moves_eq_concat_of_getLast?_eq_some _ _ hlast
    have hmap : (s.moves.map fun mv => (mv.point, mv.player)) =
        (s.moves.dropLast.map fun mv => (mv.point, mv.player)) ++ [(m.point, m.player)] := by
      conv_lhs => rw [hsplit]
      simp
    have hndpts : ((s.moves.dropLast ++ [m]).map fun mv => mv.point).Nodup := by
      rw [← hsplit]; exact hnd
    rw [List.map_append] at hndpts
    have hnotin : ∀ mv ∈ s.moves.dropLast, mv.point ≠ m.point := by
      intro mv hmv
      have hdisj := (List.nodup_append.mp hndpts).2.2
      intro hcontr
      exact hdisj (a := m.point) (by
        exact List.mem_map.mpr ⟨mv, hmv, hcontr⟩) (by simp)
    refine ⟨?_, ?_, ?_, ?_⟩
    · show removeStone s.grid m.point = _
      rw [hg, hmap, removeStone_append]
      rw [lookupGrid_moves_eq_none_iff]
      exact hnotin
    · exact (List.nodup_append.mp hndpts).1
    · intro mv hmv
      exact hon mv (by rw [hsplit]; exact List.mem_append_left _ hmv)
    · intro _; rfl

theorem gameStateExt (a b : GameState)
    (h1 : a.grid = b.grid) (h2 : a.current_player = b.current_player)
    (h3 : a.moves = b.moves) (h4 : a.winner = b.winner)
    (h5 : a.is_over = b.is_over) : a = b := by
  cases a; cases b
  simp_all

@[simp]
theorem stepPoint_zero (p : Point) (d : Int × Int) : stepPoint p d 0 = p := by
  simp [stepPoint]

theorem stepPoint_shift (p : Point) (d : Int × Int) (i : Int) :
    stepPoint ⟨p.row + d.1, p.col + d.2⟩ d i = stepPoint p d (i + 1) := by
  simp only [stepPoint, Point.mk.injEq]
  constructor <;> ring

/-- If `k` consecutive cells from `cur` onward are on-grid `pl` stones, the
    scanning loop counts at least `k` of them (given enough fuel). -/
theorem loopScan_ge (g : Grid) (pl : Player) (d : Int × Int) :
    ∀ (fuel k : Nat) (cur : Point), k ≤ fuel →
      (∀ i : Nat, i < k →
        isOnGrid (stepPoint cur d i) = true ∧
        lookupGrid g (stepPoint cur d i) = some pl) →
      k ≤ (loopScan g pl d cur fuel).1 := by
  intro fuel
  induction fuel with
  | zero => intro k cur hk _; omega
  | succ n ih =>
    intro k cur hk hgood
    cases k with
    | zero => exact Nat.zero_le _
    | succ j =>
      have h0 := hgood 0 (by omega)
      rw [Nat.cast_zero, stepPoint_zero] at h0
      have hcond : (isOnGrid cur && (lookupGrid g cur == some pl)) = true := by
        rw [h0.1, h0.2]
        simp
      unfold loopScan
      rw [hcond]
      simp only [if_true]
      have hj : j ≤ (loopScan g pl d ⟨cur.row + d.1, cur.col + d.2⟩ n).1 := by
        apply ih j _ (by omega)
        intro i hi
        rw [stepPoint_shift]
        have := hgood (i + 1) (by omega)
        rwa [Nat.cast_add, Nat.cast_one] at this
      omega

/-- If the stone placed at `p` lies on a run of ≥ 5, `_check_win` reports a
    win: each direction's two bounded scans count at least `min a 4` forward
    and `min b 4` backward, and `1 + min a 4 + min b 4 ≥ 5` whenever
    `a + b + 1 ≥ 5`. -/
theorem check_win_of_run (g : Grid) (p : Point) (pl : Player)
    (h : HasWinRunAt g p pl) : check_win g p pl = true := by
  obtain ⟨d, hd, a, b, hab, hstones⟩ := h
  unfold check_win
  rw [List.any_eq_true]
  refine ⟨d, hd, ?_⟩
  simp only [decide_eq_true_eq]
  have hfwd : min a 4 ≤ (loopScan g pl d ⟨p.row + d.1, p.col + d.2⟩ 4).1 := by
    apply loopScan_ge g pl d 4 (min a 4) _ (by omega)
    intro i hi
    rw [stepPoint_shift]
    exact hstones ((i : Int) + 1) (by omega) (by omega)
  have hbwd : min b 4 ≤
      (loopScan g pl (-d.1, -d.2) ⟨p.row - d.1, p.col - d.2⟩ 4).1 := by
    apply loopScan_ge g pl (-d.1, -d.2) 4 (min b 4) _ (by omega)
    intro i hi
    have hstep : stepPoint ⟨p.row - d.1, p.col - d.2⟩ (-d.1, -d.2) i =
        stepPoint p d (-((i : Int) + 1)) := by
      simp only [stepPoint, Point.mk.injEq]
      constructor <;> ring
    rw [hstep]
    exact hstones (-((i : Int) + 1)) (by omega) (by omega)
  unfold WIN_LENGTH
  omega

theorem mem_allPoints (p : Point) : p ∈ allPoints ↔ isOnGrid p = true := by
  constructor
  · intro hp
    rw [allPoints, List.mem_flatMap] at hp
    obtain ⟨r, hr, hp⟩ := hp
    rw [List.mem_map] at hp
    obtain ⟨c, hc, hpc⟩ := hp
    rw [List.mem_range] at hr hc
    subst hpc
    simp only [isOnGrid, BOARD_SIZE, Bool.and_eq_true, decide_eq_true_eq]
    refine ⟨⟨?_, ?_⟩, ?_, ?_⟩ <;> omega
  · intro h
    simp only [isOnGrid, BOARD_SIZE, Bool.and_eq_true, decide_eq_true_eq] at h
    obtain ⟨⟨h1, h2⟩, h3, h4⟩ := h
    rw [allPoints, List.mem_flatMap]
    refine ⟨(p.row - 1).toNat, by rw [List.mem_range]; omega, ?_⟩
    rw [List.mem_map]
    refine ⟨(p.col - 1).toNat, by rw [List.mem_range]; omega, ?_⟩
    cases p with
    | mk row col =>
      simp only at h1 h2 h3 h4
      simp only [Point.mk.injEq]
      constructor <;> omega

/-! ## Claim theorems on the board primitives -/

/-- `apply_move` followed by `undo_move` restores the state exactly (helper
    shared by several developments below). -/
theorem undo_after_apply (s s' : GameState) (p : Point)
    (hwf : WF s) (happ : apply_move s p = some s') :
    undo_move s' = (s, some ⟨p, s.current_player⟩) := by
  obtain ⟨hov, hgrid, hemp, hg', hm', hcp', hcase⟩ := apply_move_eq_some s p s' happ
  obtain ⟨hgmap, hnd, hon, hwc⟩ := hwf
  have hwnone : s.winner = none := hwc hov
  have hlast : s'.moves.getLast? = some ⟨p, s.current_player⟩ := by
    rw [hm']
    simp
  unfold undo_move
  rw [hlast]
  simp only [Prod.mk.injEq]
  refine ⟨?_, trivial⟩
  apply gameStateExt
  · show removeStone s'.grid p = s.grid
    rw [hg', placeStone, removeStone_append]
    simpa [gridIsEmptyAt, Option.isNone_iff_eq_none] using hemp
  · rfl
  · show s'.moves.dropLast = s.moves
    rw [hm']
    exact List.dropLast_concat
  · exact hwnone.symm
  · exact hov.symm

/-- **C3**: for every non-terminal position and legal point `p` (i.e. every
    position and point on which `apply_move` succeeds), applying the move at
    `p` and then undoing it restores the position exactly — stones, side to
    move, history, terminal flag and winner. -/
theorem claim_C3_apply_undo_roundtrip (s s' : GameState) (p : Point)
    (hwf : WF s) (happ : apply_move s p = some s') :
    undo_move s' = (s, some ⟨p, s.current_player⟩) :=
  undo_after_apply s s' p hwf happ

/-- Concrete state used by the C3 witness: two stones placed, black to move. -/
def c3state : GameState :=
  { grid := [(⟨8, 8⟩, .black), (⟨9, 9⟩, .white)],
    current_player := .black,
    moves := [⟨⟨8, 8⟩, .black⟩, ⟨⟨9, 9⟩, .white⟩],
    winner := none, is_over := false }

/-- Witness for C3 at a concrete position and move. -/
theorem claim_C3_witness :
    undo_move { grid := [(⟨8, 8⟩, Player.black), (⟨9, 9⟩, Player.white), (⟨8, 9⟩, Player.black)],
                current_player := Player.white,
                moves := [⟨⟨8, 8⟩, Player.black⟩, ⟨⟨9, 9⟩, Player.white⟩, ⟨⟨8, 9⟩, Player.black⟩],
                winner := none, is_over := false } =
      (c3state, some ⟨⟨8, 9⟩, Player.black⟩) :=
  claim_C3_apply_undo_roundtrip c3state _ ⟨8, 9⟩
    ⟨by decide, by decide, by decide, fun _ => by decide⟩ (by decide)

/-- **C4**: if an `apply_move` succeeds and the placed stone lies on a run of
    5 or more same-color stones along one of the four axes (overlines
    included), then the resulting position is terminal with the mover as
    winner, and no further `apply_move` is permitted (it is a contract
    violation, returning `none`) until an undo. -/
theorem claim_C4_win_sets_terminal (s s' : GameState) (p : Point)
    (happ : apply_move s p = some s')
    (hrun : HasWinRunAt s'.grid p s.current_player) :
    s'.is_over = true ∧ s'.winner = some s.current_player ∧
    ∀ q : Point, apply_move s' q = none := by
  obtain ⟨hov, hgrid, hemp, hg', hm', hcp', hcase⟩ := apply_move_eq_some s p s' happ
  rw [hg'] at hrun
  have hcw := check_win_of_run _ _ _ hrun
  rcases hcase with ⟨_, hw, ho⟩ | ⟨hfalse, _, _⟩
  · refine ⟨ho, hw, fun q => ?_⟩
    unfold apply_move
    rw [ho]
    rfl
  · rw [hcw] at hfalse
    cases hfalse

/-- Concrete pre-state for the C4 witness: black has 4 in a row on row 1,
    white has 3 scattered stones, black to move at (1,5). -/
def c4state : GameState :=
  { grid := [(⟨1, 1⟩, .black), (⟨2, 1⟩, .white), (⟨1, 2⟩, .black), (⟨2, 2⟩, .white),
             (⟨1, 3⟩, .black), (⟨2, 3⟩, .white), (⟨1, 4⟩, .black)],
    current_player := .white,
    moves := [⟨⟨1, 1⟩, .black⟩, ⟨⟨2, 1⟩, .white⟩, ⟨⟨1, 2⟩, .black⟩, ⟨⟨2, 2⟩, .white⟩,
              ⟨⟨1, 3⟩, .black⟩, ⟨⟨2, 3⟩, .white⟩, ⟨⟨1, 4⟩, .black⟩],
    winner := none, is_over := false }

/-- The C4 pre-state with one more white stone, black to move. -/
def c4state2 : GameState :=
  { grid := c4state.grid ++ [(⟨9, 9⟩, .white)],
    current_player := .black,
    moves := c4state.moves ++ [⟨⟨9, 9⟩, .white⟩],
    winner := none, is_over := false }

/-- The state after black completes five in a row at (1,5). -/
def c4won : GameState :=
  { grid := c4state2.grid ++ [(⟨1, 5⟩, .black)],
    current_player := .white,
    moves := c4state2.moves ++ [⟨⟨1, 5⟩, .black⟩],
    winner := some .black, is_over := true }

/-- Witness for C4: black completes 5 in a row on row 1 at (1,5). -/
theorem claim_C4_witness :
    c4won.is_over = true ∧ c4won.winner = some Player.black ∧
      apply_move c4won ⟨3, 3⟩ = none := by
  have h := claim_C4_win_sets_terminal c4state2 c4won ⟨1, 5⟩ (by decide)
    ⟨(0, 1), by decide, 0, 4, by omega, by
      intro k h1 h2
      interval_cases k <;> exact ⟨by decide, by decide⟩⟩
  exact ⟨h.1, h.2.1, h.2.2 ⟨3, 3⟩⟩

/-- **C8** (implicit): `apply_move` always flips the side to move, including
    when the placed stone ends the game; consequently, immediately after a
    winning apply the winner equals `current_player.other` — the invariant
    the `select_move` win-in-1 fast path relies on. -/
theorem claim_C8_apply_flips_side (s s' : GameState) (p : Point)
    (hwf : WF s) (happ : apply_move s p = some s') :
    s'.current_player = s.current_player.other ∧
    ∀ w, s'.winner = some w → w = s'.current_player.other := by
  obtain ⟨hov, hgrid, hemp, hg', hm', hcp', hcase⟩ := apply_move_eq_some s p s' happ
  obtain ⟨_, _, _, hwc⟩ := hwf
  refine ⟨hcp', fun w hw => ?_⟩
  rcases hcase with ⟨_, hw', _⟩ | ⟨_, hw', _⟩
  · rw [hw', Option.some_inj] at hw
    rw [hcp', ← hw]
    simp
  · rw [hw', hwc hov] at hw
    cases hw

/-- Witness for C8 at a winning apply: side flips to white, winner is black
    = `current_player.other`. -/
theorem claim_C8_witness :
    c4won.current_player = c4state2.current_player.other ∧
    ∀ w, c4won.winner = some w → w = c4won.current_player.other :=
  claim_C8_apply_flips_side c4state2 c4won ⟨1, 5⟩
    ⟨by decide, by decide, by decide, fun _ => by decide⟩ (by decide)

/-- **C9** (implicit): `legal_moves` returns the empty list on a terminal
    position even if empty intersections remain, and on a non-terminal
    position returns exactly the empty on-grid intersections. -/
theorem claim_C9_legal_moves_iff (s : GameState) (p : Point) :
    p ∈ legal_moves s ↔
      s.is_over = false ∧ isOnGrid p = true ∧ gridIsEmptyAt s.grid p = true := by
  unfold legal_moves
  split
  · rename_i h
    simp [h]
  · rename_i h
    have hov : s.is_over = false := by simpa using h
    simp [List.mem_filter, mem_allPoints, hov]

/-- **C10** (implicit): `undo_move` on a position with empty history returns
    `none` and leaves every component of the state unchanged. -/
theorem claim_C10_undo_empty_noop (s : GameState) (h : s.moves = []) :
    undo_move s = (s, none) ∧ (undo_move s).1.grid = s.grid ∧
    (undo_move s).1.current_player = s.current_player ∧
    (undo_move s).1.winner = s.winner ∧ (undo_move s).1.is_over = s.is_over := by
  unfold undo_move
  rw [h]
  exact ⟨rfl, rfl, rfl, rfl, rfl⟩

/-- Witness for C10 on the initial position. -/
theorem claim_C10_witness :
    undo_move initialState = (initialState, none) ∧
    (undo_move initialState).1.grid = initialState.grid ∧
    (undo_move initialState).1.current_player = initialState.current_player ∧
    (undo_move initialState).1.winner = initialState.winner ∧
    (undo_move initialState).1.is_over = initialState.is_over :=
  claim_C10_undo_empty_noop initialState rfl

/-! ## Zobrist hashing (C5)

`_compute_hash` and the incremental key update on lines 741–747 / 840–844 of
`advanced_agent.py` are parameterized here by an arbitrary 64-bit table
`Z : Point → Player → Nat` and side constant `Zside` (the Python table holds
fixed pseudo-random values; the claim is the XOR algebra, which holds for
every table). -/

/-- `_compute_hash`: fold the stone table XORing `Z[r][c][side]`, then XOR
    `ZOBRIST_SIDE` when it is WHITE's turn. -/
def compute_hash (Z : Point → Player → Nat) (Zside : Nat) (s : GameState) : Nat :=
  let h := s.grid.foldl (fun h e => h ^^^ Z e.1 e.2) 0
  if s.current_player = Player.white then h ^^^ Zside else h

/-- The incremental key update in `_pvs` / `_root_search`:
    `new_hash = hash ^ ZOBRIST[move.row][move.col][player] ^ ZOBRIST_SIDE`.
    The same update is applied on undo (XOR is self-inverse). -/
def incr_update (Z : Point → Player → Nat) (Zside : Nat) (h : Nat)
    (p : Point) (pl : Player) : Nat :=
  h ^^^ Z p pl ^^^ Zside

/-- A search step: apply a move or undo the last one. -/
inductive SearchOp where
  | app : Point → SearchOp
  | und : SearchOp
deriving DecidableEq, Repr

/-- Run one step, maintaining the Zobrist key incrementally exactly as the
    search does: apply XORs the placed stone's cell and the side constant;
    undo XORs the same values of the undone move. -/
def run_op (Z : Point → Player → Nat) (Zside : Nat) (sh : GameState × Nat) :
    SearchOp → Option (GameState × Nat)
  | .app p =>
    (apply_move sh.1 p).map fun s' =>
      (s', incr_update Z Zside sh.2 p sh.1.current_player)
  | .und =>
    (undo_move sh.1).2.map fun m =>
      ((undo_move sh.1).1, incr_update Z Zside sh.2 m.point m.player)

/-- Run a sequence of applies/undos with incremental key maintenance. -/
def run_ops (Z : Point → Player → Nat) (Zside : Nat) :
    GameState × Nat → List SearchOp → Option (GameState × Nat)
  | sh, [] => some sh
  | sh, op :: ops => (run_op Z Zside sh op).bind fun sh' => run_ops Z Zside sh' ops

/-- Sides strictly alternate: each recorded move (newest first) is by the
    other side of the player to move after it. -/
def altRev : Player → List Move → Bool
  | _, [] => true
  | cur, m :: rest => (cur = m.player.other) && altRev m.player rest

/-- Alternation invariant of a position (holds for every position built by
    play from the initial state). -/
def Alt (s : GameState) : Prop :=
  altRev s.current_player s.moves.reverse = true

instance (s : GameState) : Decidable (Alt s) := by
  unfold Alt
  infer_instance

instance (p q : Prop) [dp : Decidable p] [dq : Decidable q] : Decidable (p → q) :=
  match dp with
  | isFalse hp => isTrue fun h => absurd h hp
  | isTrue hp =>
    match dq with
    | isTrue hq => isTrue fun _ => hq
    | isFalse hq => isFalse fun h => hq (h hp)

instance (s : GameState) : Decidable (WF s) := by
  unfold WF
  infer_instance

theorem xor_rotate (a b c : Nat) : a ^^^ b ^^^ c = a ^^^ c ^^^ b := by
  rw [Nat.xor_assoc, Nat.xor_comm b c, ← Nat.xor_assoc]

theorem xor_left_comm (a b c : Nat) : a ^^^ (b ^^^ c) = b ^^^ (a ^^^ c) := by
  rw [← Nat.xor_assoc, Nat.xor_comm a b, Nat.xor_assoc]

theorem xor_cancel_left (a b : Nat) : a ^^^ (a ^^^ b) = b := by
  rw [← Nat.xor_assoc, Nat.xor_self, Nat.zero_xor]

/-- Unfolding a successful `undo_move`. -/
theorem undo_move_eq_some (s s' : GameState) (m : Move)
    (h : undo_move s = (s', some m)) :
    s.moves.getLast? = some m ∧
    s' = { grid := removeStone s.grid m.point, current_player := m.player,
           moves := s.moves.dropLast, winner := none, is_over := false } := by
  unfold undo_move at h
  cases hlast : s.moves.getLast? with
  | none =>
    rw [hlast] at h
    cases h
  | some m' =>
    rw [hlast] at h
    injection h with h1 h2
    injection h2 with h3
    subst h3
    exact ⟨rfl, h1.symm⟩

theorem Alt_apply (s s' : GameState) (p : Point)
    (happ : apply_move s p = some s') (halt : Alt s) : Alt s' := by
  obtain ⟨_, _, _, hg', hm', hcp', _⟩ := apply_move_eq_some s p s' happ
  unfold Alt at halt ⊢
  rw [hm', hcp', List.reverse_append]
  simpa [altRev] using halt

theorem Alt_undo (s s' : GameState) (m : Move)
    (hund : undo_move s = (s', some m)) (halt : Alt s) : Alt s' := by
  obtain ⟨hlast, hs'⟩ := undo_move_eq_some s s' m hund
  have hsplit := moves_eq_concat_of_getLast?_eq_some _ _ hlast
  unfold Alt at halt ⊢
  rw [hsplit, List.reverse_append] at halt
  simp only [List.reverse_cons, List.reverse_nil, List.nil_append,
    List.cons_append, altRev, Bool.and_eq_true] at halt
  rw [hs']
  simpa [altRev] using halt.2

theorem Alt_last_player (s : GameState) (m : Move)
    (hlast : s.moves.getLast? = some m) (halt : Alt s) :
    s.current_player = m.player.other := by
  have hsplit := moves_eq_concat_of_getLast?_eq_some _ _ hlast
  unfold Alt at halt
  rw [hsplit, List.reverse_append] at halt
  simp only [List.reverse_cons, List.reverse_nil, List.nil_append,
    List.cons_append, altRev, Bool.and_eq_true, decide_eq_true_eq] at halt
  exact halt.1

/-- One apply keeps the incremental key in sync with the from-scratch key. -/
theorem compute_hash_apply (Z : Point → Player → Nat) (Zside : Nat)
    (s s' : GameState) (p : Point) (happ : apply_move s p = some s') :
    compute_hash Z Zside s' =
      incr_update Z Zside (compute_hash Z Zside s) p s.current_player := by
  obtain ⟨_, _, _, hg', _, hcp', _⟩ := apply_move_eq_some s p s' happ
  unfold compute_hash incr_update
  rw [hg', hcp', placeStone, List.foldl_append]
  simp only [List.foldl_cons, List.foldl_nil]
  cases hc : s.current_player with
  | black =>
    simp only [hc, Player.other]
    simp [Nat.xor_assoc, Nat.xor_comm, xor_left_comm, xor_cancel_left, Nat.xor_self,
      Nat.xor_zero, Nat.zero_xor]
  | white =>
    simp only [hc, Player.other]
    simp [Nat.xor_assoc, Nat.xor_comm, xor_left_comm, xor_cancel_left, Nat.xor_self,
      Nat.xor_zero, Nat.zero_xor]

/-- One undo keeps the incremental key in sync with the from-scratch key. -/
theorem compute_hash_undo (Z : Point → Player → Nat) (Zside : Nat)
    (s s' : GameState) (m : Move) (hwf : WF s) (halt : Alt s)
    (hund : undo_move s = (s', some m)) :
    compute_hash Z Zside s' =
      incr_update Z Zside (compute_hash Z Zside s) m.point m.player := by
  obtain ⟨hlast, hs'⟩ := undo_move_eq_some s s' m hund
  obtain ⟨hg, hnd, _, _⟩ := hwf
  have hsplit := moves_eq_concat_of_getLast?_eq_some _ _ hlast
  have hcur := Alt_last_player s m hlast halt
  have hmap : s.grid =
      (s.moves.dropLast.map fun mv => (mv.point, mv.player)) ++ [(m.point, m.player)] := by
    rw [hg]
    conv_lhs => rw [hsplit]
    simp
  have hnotin : lookupGrid (s.moves.dropLast.map fun mv => (mv.point, mv.player)) m.point = none := by
    rw [lookupGrid_moves_eq_none_iff]
    intro mv hmv
    have hndpts : ((s.moves.dropLast ++ [m]).map fun mv => mv.point).Nodup := by
      rw [← hsplit]; exact hnd
    rw [List.map_append] at hndpts
    have hdisj := (List.nodup_append.mp hndpts).2.2
    intro hcontr
    exact hdisj (a := m.point) (List.mem_map.mpr ⟨mv, hmv, hcontr⟩) (by simp)
  have hrm : removeStone s.grid m.point =
      s.moves.dropLast.map fun mv => (mv.point, mv.player) := by
    rw [hmap]
    exact removeStone_append _ _ _ hnotin
  unfold compute_hash incr_update
  rw [hs']
  simp only
  rw [hrm, hmap, List.foldl_append]
  simp only [List.foldl_cons, List.foldl_nil]
  cases hmp : m.player with
  | black =>
    rw [hcur, hmp]
    simp only [Player.other, reduceCtorEq, if_false, if_true]
    simp [Nat.xor_assoc, Nat.xor_comm, xor_left_comm, xor_cancel_left, Nat.xor_self,
      Nat.xor_zero, Nat.zero_xor]
  | white =>
    rw [hcur, hmp]
    simp only [Player.other, reduceCtorEq, if_false, if_true]
    simp [Nat.xor_assoc, Nat.xor_comm, xor_left_comm, xor_cancel_left, Nat.xor_self,
      Nat.xor_zero, Nat.zero_xor]

/-- Auxiliary induction for C5 over an operation sequence. -/
theorem run_ops_hash (Z : Point → Player → Nat) (Zside : Nat)
    (ops : List SearchOp) :
    ∀ (s₀ : GameState) (h₀ : Nat) (s : GameState) (h : Nat),
      WF s₀ → Alt s₀ → h₀ = compute_hash Z Zside s₀ →
      run_ops Z Zside (s₀, h₀) ops = some (s, h) →
      h = compute_hash Z Zside s := by
  induction ops with
  | nil =>
    intro s₀ h₀ s h _ _ hh hrun
    unfold run_ops at hrun
    obtain ⟨h1, h2⟩ := Prod.mk.injEq .. ▸ (Option.some_inj.mp hrun)
    rw [← h2, hh, h1]
  | cons op rest ih =>
    intro s₀ h₀ s h hwf halt hh hrun
    unfold run_ops at hrun
    cases hop : run_op Z Zside (s₀, h₀) op with
    | none => rw [hop] at hrun; cases hrun
    | some sh' =>
      rw [hop, Option.some_bind] at hrun
      cases op with
      | app p =>
        simp only [run_op] at hop
        cases happ : apply_move s₀ p with
        | none => rw [happ] at hop; cases hop
        | some s₁ =>
          rw [happ] at hop
          simp only [Option.map_some', Option.some_inj] at hop
          subst hop
          exact ih s₁ _ s h (WF_apply _ _ _ hwf happ) (Alt_apply _ _ _ happ halt)
            (by rw [hh]; exact (compute_hash_apply Z Zside s₀ s₁ p happ).symm) hrun
      | und =>
        simp only [run_op] at hop
        cases hund : undo_move s₀ with
        | mk s₁ om =>
          cases om with
          | none => rw [hund] at hop; cases hop
          | some m =>
            rw [hund] at hop
            simp only [Option.map_some', Option.some_inj] at hop
            subst hop
            exact ih s₁ _ s h (by have := WF_undo s₀ hwf; rwa [hund] at this)
              (Alt_undo _ _ _ hund halt)
              (by rw [hh]; exact (compute_hash_undo Z Zside s₀ s₁ m hwf halt hund).symm) hrun

/-- **C5**: for every Zobrist table, every sequence of applies/undos starting
    from a position whose key was computed from scratch keeps the
    incrementally maintained key equal to the key recomputed from scratch
    for the resulting position. -/
theorem claim_C5_zobrist_incremental (Z : Point → Player → Nat) (Zside : Nat)
    (s₀ : GameState) (ops : List SearchOp) (s : GameState) (h : Nat)
    (hwf : WF s₀) (halt : Alt s₀)
    (hrun : run_ops Z Zside (s₀, compute_hash Z Zside s₀) ops = some (s, h)) :
    h = compute_hash Z Zside s :=
  run_ops_hash Z Zside ops s₀ _ s h hwf halt rfl hrun

/-- Concrete Zobrist table for the C5 witness. -/
def c5Z : Point → Player → Nat :=
  fun p pl => (2 * p.row + 37 * p.col).toNat + (if pl = Player.black then 101 else 202)

/-- Concrete op sequence: two applies, one undo, one apply. -/
def c5ops : List SearchOp := [.app ⟨8, 8⟩, .app ⟨9, 9⟩, .und, .app ⟨7, 7⟩]

/-- Result of running the C5 witness sequence. -/
def c5run : Option (GameState × Nat) :=
  run_ops c5Z 999 (initialState, compute_hash c5Z 999 initialState) c5ops

/-- Witness for C5 on a concrete table and op sequence. -/
theorem claim_C5_witness :
    (c5run.getD (initialState, 0)).2 =
      compute_hash c5Z 999 (c5run.getD (initialState, 0)).1 :=
  claim_C5_zobrist_incremental c5Z 999 initialState c5ops
    (c5run.getD (initialState, 0)).1 (c5run.getD (initialState, 0)).2
    (by decide) (by decide) (by decide)

/-! ## The advanced agent's evaluator (`advanced_agent.py`) -/

/-- `_pattern_score`: table lookup with the `count >= WIN_LENGTH` shortcut. -/
def pattern_score (count : Nat) (open_ends : Nat) : Int :=
  if count ≥ WIN_LENGTH then 100000
  else if count = 4 ∧ open_ends = 2 then 50000
  else if count = 4 ∧ open_ends = 1 then 12000
  else if count = 3 ∧ open_ends = 2 then 6000
  else if count = 3 ∧ open_ends = 1 then 1500
  else if count = 2 ∧ open_ends = 2 then 1000
  else if count = 2 ∧ open_ends = 1 then 100
  else 0

/-- The backward walk to a group's start (`while True: ... sr, sc = pr, pc`),
    stepping against direction `d` while the previous cell holds a `pl` stone. -/
def walkBack (g : Grid) (pl : Player) (d : Int × Int) : Point → Nat → Point
  | p, 0 => p
  | p, fuel + 1 =>
    let q : Point := ⟨p.row - d.1, p.col - d.2⟩
    if isOnGrid q && (lookupGrid g q == some pl) then walkBack g pl d q fuel else p

/-- The forward counting walk that also records the visited group cells:
    returns (count, loop end point, group points in forward order). -/
def loopScanV (g : Grid) (pl : Player) (d : Int × Int) : Point → Nat → Nat × Point × List Point
  | p, 0 => (0, p, [])
  | p, fuel + 1 =>
    if isOnGrid p && (lookupGrid g p == some pl) then
      let rest := loopScanV g pl d ⟨p.row + d.1, p.col + d.2⟩ fuel
      (rest.1 + 1, rest.2.1, p :: rest.2.2)
    else (0, p, [])

/-- Accumulator of `evaluate`'s direction scan: the per-direction `visited`
    set, the running score, and the four fork counters. -/
structure EvalAcc where
  visited : List Point
  score : Int
  b3 : Nat
  b4 : Nat
  w3 : Nat
  w4 : Nat
deriving DecidableEq, Repr

/-- The open-end count of a group with start `start` and one-past-the-end
    cell `after` (an end is open when the adjacent off-group cell is on the
    grid and empty). -/
def openEndsOf (g : Grid) (d : Int × Int) (start after : Point) : Nat :=
  (if isOnGrid ⟨start.row - d.1, start.col - d.2⟩ &&
      (lookupGrid g ⟨start.row - d.1, start.col - d.2⟩).isNone then 1 else 0) +
  (if isOnGrid after && (lookupGrid g after).isNone then 1 else 0)

/-- The scoring/counter update at the end of `evaluate`'s loop body:
    `score ± pattern_score`, and the `open3` / `four` counter bumps. -/
def evalUpdate (player : Player) (acc : EvalAcc) (visited' : List Point)
    (count open_ends : Nat) : EvalAcc :=
  let ps := pattern_score count open_ends
  if player = Player.black then
    if count = 3 ∧ open_ends = 2 then
      { acc with visited := visited', score := acc.score + ps, b3 := acc.b3 + 1 }
    else if 4 ≤ count then
      { acc with visited := visited', score := acc.score + ps, b4 := acc.b4 + 1 }
    else
      { acc with visited := visited', score := acc.score + ps }
  else
    if count = 3 ∧ open_ends = 2 then
      { acc with visited := visited', score := acc.score - ps, w3 := acc.w3 + 1 }
    else if 4 ≤ count then
      { acc with visited := visited', score := acc.score - ps, w4 := acc.w4 + 1 }
    else
      { acc with visited := visited', score := acc.score - ps }

/-- The body of `evaluate`'s `for pt in occupied` loop for one direction. -/
def evalStep (g : Grid) (d : Int × Int) (acc : EvalAcc) (pt : Point) : EvalAcc :=
  if pt ∈ acc.visited then acc
  else
    match lookupGrid g pt with
    | none => acc
    | some player =>
      let start := walkBack g player d pt 16
      if start ∈ acc.visited then acc
      else
        let scan := loopScanV g player d start 16
        evalUpdate player acc (acc.visited ++ scan.2.2) scan.1
          (openEndsOf g d start scan.2.1)

/-- One direction of `evaluate`'s scan (fresh `visited` per direction). -/
def evalDir (g : Grid) (occ : List Point) (d : Int × Int) (acc : EvalAcc) : EvalAcc :=
  occ.foldl (evalStep g d) { acc with visited := [] }

/-- A 5-cell window starting at `p` along `d` (`None` when it leaves the
    grid, mirroring the `valid` flag in `_broken_four_bonus`). -/
def windowCells (g : Grid) (d : Int × Int) : Point → Nat → Option (List (Option Player))
  | _, 0 => some []
  | p, n + 1 =>
    if isOnGrid p then
      (windowCells g d ⟨p.row + d.1, p.col + d.2⟩ n).map fun rest => lookupGrid g p :: rest
    else none

/-- The contribution of one window for one player in `_broken_four_bonus`:
    `±BROKEN_FOUR_SCORE` for a non-contiguous 4-of-5 window led by that
    player's stone, else 0. -/
def window_contrib (cells : List (Option Player)) (player : Player) : Int :=
  if cells.head? ≠ some (some player) then 0
  else
    let pcount := (cells.filter fun c => c == some player).length
    let ocount := (cells.filter fun c => c.isSome && !(c == some player)).length
    if pcount ≠ 4 ∨ 0 < ocount then 0
    else
      let idx := (List.range cells.length).filter fun i => cells.getD i none == some player
      if idx.getLast?.getD 0 - idx.head?.getD 0 + 1 = 4 then 0
      else (if player = Player.black then 1 else -1) * 10000

/-- `_broken_four_bonus`. -/
def broken_four_bonus (g : Grid) (occ : List Point) : Int :=
  if occ.length < 4 then 0
  else
    DIRECTIONS.foldl (fun acc d =>
      occ.foldl (fun acc2 pt =>
        match windowCells g d pt 5 with
        | none => acc2
        | some cells =>
          acc2 + window_contrib cells Player.black + window_contrib cells Player.white)
        acc) 0

/-- `evaluate`: terminal shortcut, per-direction group scan with fork
    counters, fork bonuses, and the broken-four bonus. -/
def evaluate (s : GameState) : Int :=
  if s.is_over then
    match s.winner with
    | some .black => 1000000
    | some .white => -1000000
    | none => 0
  else
    let occ := s.moves.map fun m => m.point
    let acc := DIRECTIONS.foldl (fun a d => evalDir s.grid occ d a)
      { visited := [], score := 0, b3 := 0, b4 := 0, w3 := 0, w4 := 0 }
    let sc1 := if acc.b3 ≥ 2 then acc.score + 5000 else acc.score
    let sc2 := if acc.w3 ≥ 2 then sc1 - 5000 else sc1
    let sc3 := if acc.b4 ≥ 1 ∧ acc.b3 ≥ 1 then sc2 + 9000 else sc2
    let sc4 := if acc.w4 ≥ 1 ∧ acc.w3 ≥ 1 then sc3 - 9000 else sc3
    sc4 + broken_four_bonus s.grid occ

/-! ## Forced-response detection and candidate generation -/

/-- Accumulator for `_four_extension_squares`. -/
structure FourAcc where
  visited : List Point
  squares : List Point
deriving DecidableEq, Repr

/-- The body of `_four_extension_squares`'s occupied loop for one direction. -/
def fourStep (g : Grid) (pl : Player) (d : Int × Int) (acc : FourAcc) (pt : Point) : FourAcc :=
  if pt ∈ acc.visited then acc
  else if !(lookupGrid g pt == some pl) then acc
  else
    let start := walkBack g pl d pt 16
    if start ∈ acc.visited then acc
    else
      let scan := loopScanV g pl d start 16
      let count := scan.1
      let after := scan.2.1
      let visited' := acc.visited ++ scan.2.2
      if count = 4 then
        let before : Point := ⟨start.row - d.1, start.col - d.2⟩
        let sq1 := if isOnGrid before && gridIsEmptyAt g before then [before] else []
        let sq2 := if isOnGrid after && gridIsEmptyAt g after then [after] else []
        { visited := visited', squares := acc.squares ++ sq1 ++ sq2 }
      else { visited := visited', squares := acc.squares }

/-- `_four_extension_squares`: all empty endpoints of `player`'s exactly-4
    groups. -/
def four_extension_squares (s : GameState) (player : Player) : List Point :=
  let occ := s.moves.map fun m => m.point
  (DIRECTIONS.foldl (fun acc d =>
    occ.foldl (fourStep s.grid player d) { visited := [], squares := acc.squares })
    { visited := [], squares := [] }).squares

/-- Accumulator for `_open_three_squares`. -/
structure O3Acc where
  visited : List Point
  squares : List Point
  count : Nat
deriving DecidableEq, Repr

/-- The body of `_open_three_squares`'s occupied loop for one direction. -/
def o3Step (g : Grid) (pl : Player) (d : Int × Int) (acc : O3Acc) (pt : Point) : O3Acc :=
  if pt ∈ acc.visited || !(lookupGrid g pt == some pl) then acc
  else
    let start := walkBack g pl d pt 16
    if start ∈ acc.visited then acc
    else
      let scan := loopScanV g pl d start 16
      let n := scan.1
      let after := scan.2.1
      let visited' := acc.visited ++ scan.2.2
      if n = 3 then
        let before : Point := ⟨start.row - d.1, start.col - d.2⟩
        if (isOnGrid before && gridIsEmptyAt g before) &&
           (isOnGrid after && gridIsEmptyAt g after) then
          { visited := visited', squares := acc.squares ++ [before, after],
            count := acc.count + 1 }
        else { visited := visited', squares := acc.squares, count := acc.count }
      else { visited := visited', squares := acc.squares, count := acc.count }

/-- `_open_three_squares`: blocking end-squares and count of open-3s. -/
def open_three_squares (s : GameState) (pl : Player) : List Point × Nat :=
  let occ := s.moves.map fun m => m.point
  let acc := DIRECTIONS.foldl (fun acc d =>
    occ.foldl (o3Step s.grid pl d) { visited := [], squares := acc.squares, count := acc.count })
    { visited := [], squares := [], count := 0 }
  (acc.squares, acc.count)

/-- `_is_winning_placement`: would placing `pl` at `m` make 5-in-a-row?
    The two walks are unbounded `while` loops in the source; fuel 16 covers
    every on-grid run. -/
def is_winning_placement (s : GameState) (m : Point) (pl : Player) : Bool :=
  if !isOnGrid m || !gridIsEmptyAt s.grid m then false
  else
    DIRECTIONS.any fun d =>
      let fwd := (loopScan s.grid pl d ⟨m.row + d.1, m.col + d.2⟩ 16).1
      let bwd := (loopScan s.grid pl (-d.1, -d.2) ⟨m.row - d.1, m.col - d.2⟩ 16).1
      1 + fwd + bwd ≥ WIN_LENGTH

/-- `_move_heuristic`: symmetric offensive + defensive pattern score of a
    move over the four axes. -/
def move_heuristic (s : GameState) (move : Point) : Int :=
  DIRECTIONS.foldl (fun score d =>
    [s.current_player, s.current_player.other].foldl (fun score2 player =>
      let fscan := loopScan s.grid player d ⟨move.row + d.1, move.col + d.2⟩ 16
      let bscan := loopScan s.grid player (-d.1, -d.2) ⟨move.row - d.1, move.col - d.2⟩ 16
      let count := 1 + fscan.1 + bscan.1
      let oe1 : Nat := if isOnGrid fscan.2 && (lookupGrid s.grid fscan.2).isNone then 1 else 0
      let oe2 : Nat := if isOnGrid bscan.2 && (lookupGrid s.grid bscan.2).isNone then 1 else 0
      score2 + pattern_score count (oe1 + oe2)) score) 0

/-- Insertion into a Python set, modelled as first-occurrence order. -/
def pushNew (l : List Point) (p : Point) : List Point :=
  if p ∈ l then l else l ++ [p]

/-- `dict.fromkeys` / `list(set(...))` de-duplication keeping first
    occurrences. -/
def dedupFirst : List Point → List Point
  | [] => []
  | x :: xs => x :: dedupFirst (xs.filter fun y => !(y == x))
termination_by l => l.length
decreasing_by
  simp only [List.length_cons]
  exact Nat.lt_succ_of_le (List.length_filter_le _ _)

/-- The 24 neighbor offsets of the candidate scan (`range(-2,3)` squared,
    skipping `(0,0)`), in loop order. -/
def neighborOffsets : List (Int × Int) :=
  ((List.range 5).flatMap fun (i : Nat) => (List.range 5).map fun (j : Nat) =>
    ((i : Int) - 2, (j : Int) - 2)).filter fun o => !(o.1 == 0 && o.2 == 0)

/-- One offset step of the `dist1` / `dist2` neighbor scan. -/
def distStep (g : Grid) (pt : Point) (acc2 : List Point × List Point)
    (o : Int × Int) : List Point × List Point :=
  let np : Point := ⟨pt.row + o.1, pt.col + o.2⟩
  if !isOnGrid np || !gridIsEmptyAt g np then acc2
  else if o.1.natAbs ≤ 1 && o.2.natAbs ≤ 1 then (pushNew acc2.1 np, acc2.2)
  else (acc2.1, pushNew acc2.2 np)

/-- The `dist1` / `dist2` neighbor sets of `generate_candidates`. -/
def distSets (g : Grid) (occ : List Point) : List Point × List Point :=
  occ.foldl (fun acc pt => neighborOffsets.foldl (distStep g pt) acc) ([], [])

/-- Priority 2 of `generate_candidates`: the forced response to an
    opponent four — union of the empty endpoints of the opponent's fours and
    of the mover's own fours, filtered to legal empty squares (empty when the
    opponent has no four). -/
def prio2_combined (s : GameState) : List Point :=
  if (four_extension_squares s s.current_player.other).isEmpty then []
  else
    dedupFirst (((four_extension_squares s s.current_player.other) ++
      four_extension_squares s s.current_player).filter fun p =>
        isOnGrid p && gridIsEmptyAt s.grid p)

/-- Priorities 3–6 of `generate_candidates`: immediate wins, blocks of the
    opponent's immediate wins, the double-open-3 forced response, and the
    Chebyshev-distance neighbor set. -/
def candidates_general (s : GameState) : List Point :=
  let current := s.current_player
  let opponent := current.other
  let occ := s.moves.map fun m => m.point
  let ds := distSets s.grid occ
  let dist2 := ds.2.filter fun p => !(decide (p ∈ ds.1))
  let candidates := ds.1 ++ dist2
  let my_wins := candidates.filter fun m => is_winning_placement s m current
  if !my_wins.isEmpty then my_wins
  else
    let opp_wins := candidates.filter fun m => is_winning_placement s m opponent
    if !opp_wins.isEmpty then
      dedupFirst (opp_wins.filter fun m => gridIsEmptyAt s.grid m)
    else
      let o3 := open_three_squares s opponent
      if o3.2 ≥ 2 then
        let counter := candidates.filter fun m => move_heuristic s m ≥ 50000
        let blocks := o3.1.filter fun p => isOnGrid p && gridIsEmptyAt s.grid p
        let comb2 := dedupFirst (counter ++ blocks)
        if comb2.length ≥ 2 then comb2 else candidates
      else candidates

/-- `generate_candidates`: the six-priority candidate generator. -/
def generate_candidates (s : GameState) : List Point :=
  if s.moves.isEmpty then [⟨8, 8⟩]
  else if !(four_extension_squares s s.current_player.other).isEmpty &&
          !(prio2_combined s).isEmpty then
    prio2_combined s
  else candidates_general s

/-! ## Color-swap antisymmetry of `evaluate` (C6) -/

/-- Swap the color of every placed stone. -/
def swapGrid (g : Grid) : Grid := g.map fun e => (e.1, e.2.other)

/-- The color-swapped position: stones, history, winner and side to move all
    change color; the geometry is unchanged. -/
def swapState (s : GameState) : GameState :=
  { grid := swapGrid s.grid,
    current_player := s.current_player.other,
    moves := s.moves.map fun m => ⟨m.point, m.player.other⟩,
    winner := s.winner.map Player.other,
    is_over := s.is_over }

theorem lookupGrid_swap (g : Grid) (p : Point) :
    lookupGrid (swapGrid g) p = (lookupGrid g p).map Player.other := by
  induction g with
  | nil => rfl
  | cons e rest ih =>
    simp only [swapGrid, List.map_cons, lookupGrid] at ih ⊢
    by_cases h : e.1 = p
    · simp [h]
    · simp only [h, if_false]
      exact ih

theorem beq_lookup_swap (g : Grid) (p : Point) (pl : Player) :
    (lookupGrid (swapGrid g) p == some pl.other) = (lookupGrid g p == some pl) := by
  rw [lookupGrid_swap]
  cases lookupGrid g p with
  | none => rfl
  | some q => cases q <;> cases pl <;> rfl

theorem isNone_lookup_swap (g : Grid) (p : Point) :
    (lookupGrid (swapGrid g) p).isNone = (lookupGrid g p).isNone := by
  rw [lookupGrid_swap]
  cases lookupGrid g p <;> rfl

theorem walkBack_swap (g : Grid) (pl : Player) (d : Int × Int) :
    ∀ (fuel : Nat) (p : Point),
      walkBack (swapGrid g) pl.other d p fuel = walkBack g pl d p fuel := by
  intro fuel
  induction fuel with
  | zero => intro p; rfl
  | succ n ih =>
    intro p
    simp only [walkBack]
    rw [beq_lookup_swap]
    split
    · exact ih _
    · rfl

theorem loopScanV_swap (g : Grid) (pl : Player) (d : Int × Int) :
    ∀ (fuel : Nat) (p : Point),
      loopScanV (swapGrid g) pl.other d p fuel = loopScanV g pl d p fuel := by
  intro fuel
  induction fuel with
  | zero => intro p; rfl
  | succ n ih =>
    intro p
    simp only [loopScanV]
    rw [beq_lookup_swap]
    split
    · rw [ih]
    · rfl

theorem loopScan_swap (g : Grid) (pl : Player) (d : Int × Int) :
    ∀ (fuel : Nat) (p : Point),
      loopScan (swapGrid g) pl.other d p fuel = loopScan g pl d p fuel := by
  intro fuel
  induction fuel with
  | zero => intro p; rfl
  | succ n ih =>
    intro p
    simp only [loopScan]
    rw [beq_lookup_swap]
    split
    · rw [ih]
    · rfl

/-- Color swap of the evaluation accumulator: score negated, black and white
    fork counters exchanged. -/
def accSwap (a : EvalAcc) : EvalAcc :=
  { visited := a.visited, score := -a.score, b3 := a.w3, b4 := a.w4, w3 := a.b3, w4 := a.b4 }

theorem evalAccExt (x y : EvalAcc)
    (h1 : x.visited = y.visited) (h2 : x.score = y.score) (h3 : x.b3 = y.b3)
    (h4 : x.b4 = y.b4) (h5 : x.w3 = y.w3) (h6 : x.w4 = y.w4) : x = y := by
  cases x; cases y; simp_all

theorem openEndsOf_swap (g : Grid) (d : Int × Int) (start after : Point) :
    openEndsOf (swapGrid g) d start after = openEndsOf g d start after := by
  unfold openEndsOf
  rw [isNone_lookup_swap, isNone_lookup_swap]

theorem evalUpdate_swap (player : Player) (acc : EvalAcc) (v : List Point)
    (count open_ends : Nat) :
    evalUpdate player.other (accSwap acc) v count open_ends =
      accSwap (evalUpdate player acc v count open_ends) := by
  unfold evalUpdate
  cases player with
  | black =>
    simp only [Player.other, reduceCtorEq, if_false, if_true, accSwap]
    split
    · exact evalAccExt _ _ rfl (by ring) rfl rfl rfl rfl
    · split
      · exact evalAccExt _ _ rfl (by ring) rfl rfl rfl rfl
      · exact evalAccExt _ _ rfl (by ring) rfl rfl rfl rfl
  | white =>
    simp only [Player.other, reduceCtorEq, if_false, if_true, accSwap]
    split
    · exact evalAccExt _ _ rfl (by ring) rfl rfl rfl rfl
    · split
      · exact evalAccExt _ _ rfl (by ring) rfl rfl rfl rfl
      · exact evalAccExt _ _ rfl (by ring) rfl rfl rfl rfl

theorem evalStep_swap (g : Grid) (d : Int × Int) (a : EvalAcc) (pt : Point) :
    evalStep (swapGrid g) d (accSwap a) pt = accSwap (evalStep g d a pt) := by
  unfold evalStep
  have hvv : (accSwap a).visited = a.visited := rfl
  rw [hvv]
  by_cases hv : pt ∈ a.visited
  · simp [hv]
  · simp only [hv, if_false]
    rw [lookupGrid_swap]
    cases hl : lookupGrid g pt with
    | none => simp
    | some player =>
      simp only [Option.map_some']
      rw [walkBack_swap]
      by_cases hsv : walkBack g player d pt 16 ∈ a.visited
      · simp [hsv]
      · simp only [hsv, if_false]
        rw [loopScanV_swap, openEndsOf_swap]
        exact evalUpdate_swap player a _ _ _

theorem evalDir_swap (g : Grid) (occ : List Point) (d : Int × Int) (a : EvalAcc) :
    evalDir (swapGrid g) occ d (accSwap a) = accSwap (evalDir g occ d a) := by
  unfold evalDir
  have hreset : ({ accSwap a with visited := [] } : EvalAcc) =
      accSwap { a with visited := [] } := rfl
  rw [hreset]
  exact List.foldl_hom accSwap (evalStep g d) (evalStep (swapGrid g) d) occ _
    (fun x y => evalStep_swap g d x y)

theorem beq_cell_swap (c : Option Player) (pl : Player) :
    (Option.map Player.other c == some pl) = (c == some pl.other) := by
  cases c with
  | none => rfl
  | some q => cases q <;> cases pl <;> rfl

theorem isSome_cell_swap (c : Option Player) :
    (Option.map Player.other c).isSome = c.isSome := by
  cases c <;> rfl

theorem getD_map_swap (cells : List (Option Player)) :
    ∀ i : Nat, (cells.map (Option.map Player.other)).getD i none =
      Option.map Player.other (cells.getD i none) := by
  induction cells with
  | nil => intro i; cases i <;> rfl
  | cons c rest ih =>
    intro i
    cases i with
    | zero => rfl
    | succ j => exact ih j

theorem windowCells_swap (g : Grid) (d : Int × Int) :
    ∀ (n : Nat) (p : Point),
      windowCells (swapGrid g) d p n =
        (windowCells g d p n).map (List.map (Option.map Player.other)) := by
  intro n
  induction n with
  | zero => intro p; rfl
  | succ k ih =>
    intro p
    simp only [windowCells]
    by_cases h : isOnGrid p = true
    · simp only [h, if_true]
      rw [ih, lookupGrid_swap]
      cases windowCells g d ⟨p.row + d.1, p.col + d.2⟩ k <;> simp
    · simp [h]

theorem window_contrib_swap (cells : List (Option Player)) (pl : Player) :
    window_contrib (cells.map (Option.map Player.other)) pl =
      -(window_contrib cells pl.other) := by
  have hfilter1 : ((cells.map (Option.map Player.other)).filter fun c =>
        c == some pl).length =
      (cells.filter fun c => c == some pl.other).length := by
    rw [List.filter_map, List.length_map]
    have hpred : ((fun c => c == some pl) ∘ Option.map Player.other) =
        fun c : Option Player => c == some pl.other := by
      funext c
      simp only [Function.comp_apply]
      exact beq_cell_swap c pl
    rw [hpred]
  have hfilter2 : ((cells.map (Option.map Player.other)).filter fun c =>
        c.isSome && !(c == some pl)).length =
      (cells.filter fun c => c.isSome && !(c == some pl.other)).length := by
    rw [List.filter_map, List.length_map]
    have hpred : ((fun c : Option Player => c.isSome && !(c == some pl)) ∘
        Option.map Player.other) =
        fun c : Option Player => c.isSome && !(c == some pl.other) := by
      funext c
      simp only [Function.comp_apply]
      rw [isSome_cell_swap, beq_cell_swap]
    rw [hpred]
  have hidx : ((List.range (cells.map (Option.map Player.other)).length).filter fun i =>
        (cells.map (Option.map Player.other)).getD i none == some pl) =
      ((List.range cells.length).filter fun i => cells.getD i none == some pl.other) := by
    rw [List.length_map]
    congr 1
    funext i
    rw [getD_map_swap, beq_cell_swap]
  have hhead : ((cells.map (Option.map Player.other)).head? ≠ some (some pl)) ↔
      (cells.head? ≠ some (some pl.other)) := by
    rw [List.head?_map]
    cases cells.head? with
    | none => simp
    | some c =>
      cases c with
      | none => simp
      | some q => cases q <;> cases pl <;> decide
  simp only [window_contrib]
  by_cases hc : cells.head? ≠ some (some pl.other)
  · rw [if_pos (hhead.mpr hc), if_pos hc]
    simp
  · rw [if_neg (fun hcontr => hc (hhead.mp hcontr)), if_neg hc]
    rw [hfilter1, hfilter2, hidx]
    split
    · simp
    · split
      · simp
      · cases pl <;> decide

theorem broken_four_bonus_swap (g : Grid) (occ : List Point) :
    broken_four_bonus (swapGrid g) occ = -(broken_four_bonus g occ) := by
  have hstep : ∀ (d : Int × Int) (x : Int) (pt : Point),
      (match windowCells (swapGrid g) d pt 5 with
       | none => x
       | some cells =>
         x + window_contrib cells Player.black + window_contrib cells Player.white) =
      (match windowCells g d pt 5 with
       | none => x
       | some cells =>
         x - window_contrib cells Player.white - window_contrib cells Player.black) := by
    intro d x pt
    rw [windowCells_swap]
    cases windowCells g d pt 5 with
    | none => rfl
    | some cells =>
      simp only [Option.map_some']
      have hb := window_contrib_swap cells Player.black
      have hw := window_contrib_swap cells Player.white
      simp only [Player.other] at hb hw
      rw [hb, hw]
      ring
  have hinner : ∀ (d : Int × Int) (x : Int),
      occ.foldl (fun acc2 pt =>
        match windowCells (swapGrid g) d pt 5 with
        | none => acc2
        | some cells =>
          acc2 + window_contrib cells Player.black + window_contrib cells Player.white) (-x) =
      -(occ.foldl (fun acc2 pt =>
        match windowCells g d pt 5 with
        | none => acc2
        | some cells =>
          acc2 + window_contrib cells Player.black + window_contrib cells Player.white) x) := by
    intro d x
    apply List.foldl_hom Neg.neg _ _ occ x
    intro b y
    rw [hstep d (-b) y]
    cases windowCells g d y 5 with
    | none => rfl
    | some cells => simp only; ring
  unfold broken_four_bonus
  by_cases hlen : occ.length < 4
  · simp [hlen]
  · simp only [hlen, if_false]
    conv_lhs => rw [show (0 : Int) = -0 by simp]
    apply List.foldl_hom Neg.neg _ _ DIRECTIONS 0
    intro x d
    exact hinner d x

/-- **C6**: `evaluate` is antisymmetric under color swap — the position with
    all stone colors (and the winner, on terminal positions) swapped
    evaluates to the exact negation, including pattern scores, fork bonuses
    and the broken-four bonus. -/
theorem claim_C6_evaluate_color_antisymmetric (s : GameState) :
    evaluate (swapState s) = -evaluate s := by
  unfold evaluate
  simp only [swapState]
  cases hov : s.is_over with
  | true =>
    simp only [if_true]
    cases hw : s.winner with
    | none => simp
    | some q => cases q <;> rfl
  | false =>
    simp only [Bool.false_eq_true, if_false]
    have hocc : ((s.moves.map fun m => (⟨m.point, m.player.other⟩ : Move)).map
        fun m => m.point) = s.moves.map fun m => m.point := by
      rw [List.map_map]
      rfl
    rw [hocc]
    have hbase : ({ visited := [], score := 0, b3 := 0, b4 := 0, w3 := 0, w4 := 0 } :
        EvalAcc) = accSwap { visited := [], score := 0, b3 := 0, b4 := 0, w3 := 0, w4 := 0 } := by
      simp [accSwap]
    have hacc : DIRECTIONS.foldl
        (fun a d => evalDir (swapGrid s.grid) (s.moves.map fun m => m.point) d a)
        { visited := [], score := 0, b3 := 0, b4 := 0, w3 := 0, w4 := 0 } =
        accSwap (DIRECTIONS.foldl
          (fun a d => evalDir s.grid (s.moves.map fun m => m.point) d a)
          { visited := [], score := 0, b3 := 0, b4 := 0, w3 := 0, w4 := 0 }) := by
      rw [hbase]
      exact List.foldl_hom accSwap _ _ DIRECTIONS _
        (fun a d => evalDir_swap s.grid _ d a)
    rw [hacc, broken_four_bonus_swap]
    set acc := DIRECTIONS.foldl
      (fun a d => evalDir s.grid (s.moves.map fun m => m.point) d a)
      { visited := [], score := 0, b3 := 0, b4 := 0, w3 := 0, w4 := 0 } with haccdef
    simp only [accSwap]
    by_cases h1 : acc.b3 ≥ 2 <;> by_cases h2 : acc.w3 ≥ 2 <;>
      by_cases h3 : acc.b4 ≥ 1 ∧ acc.b3 ≥ 1 <;> by_cases h4 : acc.w4 ≥ 1 ∧ acc.w3 ≥ 1 <;>
      simp [h1, h2, h3, h4] <;> ring

/-! ## Winning placements are always in the candidate set (C2) -/

theorem lookup_eq_some_mem (g : Grid) (q : Point) (pl : Player)
    (h : lookupGrid g q = some pl) : (q, pl) ∈ g := by
  induction g with
  | nil => cases h
  | cons e rest ih =>
    unfold lookupGrid at h
    by_cases he : e.1 = q
    · rw [if_pos he] at h
      have h2 : e.2 = pl := by injection h
      have he' : e = (q, pl) := by
        obtain ⟨e1, e2⟩ := e
        simp only at he h2
        rw [he, h2]
      rw [← he']
      exact List.mem_cons_self _ _
    · rw [if_neg he] at h
      exact List.mem_cons_of_mem _ (ih h)

theorem lookup_some_mem_occ (s : GameState) (q : Point) (pl : Player)
    (hwf : WF s) (h : lookupGrid s.grid q = some pl) :
    q ∈ s.moves.map fun m => m.point := by
  obtain ⟨hg, _, _, _⟩ := hwf
  rw [hg] at h
  have := lookup_eq_some_mem _ _ _ h
  obtain ⟨mv, hmv, heq⟩ := List.mem_map.mp this
  rw [List.mem_map]
  exact ⟨mv, hmv, congrArg Prod.fst heq⟩

theorem loopScan_pos (g : Grid) (pl : Player) (d : Int × Int) (p : Point) (fuel : Nat)
    (h : 1 ≤ (loopScan g pl d p fuel).1) :
    isOnGrid p = true ∧ lookupGrid g p = some pl := by
  cases fuel with
  | zero => simp [loopScan] at h
  | succ n =>
    unfold loopScan at h
    by_cases hc : (isOnGrid p && (lookupGrid g p == some pl)) = true
    · simp only [Bool.and_eq_true, beq_iff_eq] at hc
      exact hc
    · rw [if_neg hc] at h
      simp at h

theorem loopScanV_zero (g : Grid) (pl : Player) (d : Int × Int) (p : Point) :
    loopScanV g pl d p 0 = (0, p, []) := rfl

theorem loopScanV_succ (g : Grid) (pl : Player) (d : Int × Int) (p : Point) (n : Nat) :
    loopScanV g pl d p (n + 1) =
      if isOnGrid p && (lookupGrid g p == some pl) then
        ((loopScanV g pl d ⟨p.row + d.1, p.col + d.2⟩ n).1 + 1,
         (loopScanV g pl d ⟨p.row + d.1, p.col + d.2⟩ n).2.1,
         p :: (loopScanV g pl d ⟨p.row + d.1, p.col + d.2⟩ n).2.2)
      else (0, p, []) := rfl

/-- Joint specification of `loopScanV`: the counted cells hold `pl` stones,
    and the loop's end point is `count` steps from the start. -/
theorem loopScanV_spec (g : Grid) (pl : Player) (d : Int × Int) :
    ∀ (fuel : Nat) (p : Point),
      (∀ i : Nat, i < (loopScanV g pl d p fuel).1 →
        isOnGrid (stepPoint p d i) = true ∧
        lookupGrid g (stepPoint p d i) = some pl) ∧
      (loopScanV g pl d p fuel).2.1 = stepPoint p d (loopScanV g pl d p fuel).1 := by
  intro fuel
  induction fuel with
  | zero =>
    intro p
    rw [loopScanV_zero]
    refine ⟨fun i hi => absurd hi (Nat.not_lt_zero i), ?_⟩
    show p = stepPoint p d ((0 : Nat) : Int)
    rw [Nat.cast_zero, stepPoint_zero]
  | succ n ih =>
    intro p
    rw [loopScanV_succ]
    by_cases hc : (isOnGrid p && (lookupGrid g p == some pl)) = true
    · rw [if_pos hc]
      have hgood : isOnGrid p = true ∧ lookupGrid g p = some pl := by
        simpa [Bool.and_eq_true, beq_iff_eq] using hc
      obtain ⟨ihs, ihe⟩ := ih ⟨p.row + d.1, p.col + d.2⟩
      constructor
      · intro i hi
        have hi' : i < (loopScanV g pl d ⟨p.row + d.1, p.col + d.2⟩ n).1 + 1 := hi
        cases i with
        | zero =>
          rw [Nat.cast_zero, stepPoint_zero]
          exact hgood
        | succ j =>
          have := ihs j (by omega)
          rw [stepPoint_shift] at this
          rwa [Nat.cast_add, Nat.cast_one]
      · show (loopScanV g pl d ⟨p.row + d.1, p.col + d.2⟩ n).2.1 =
          stepPoint p d (((loopScanV g pl d ⟨p.row + d.1, p.col + d.2⟩ n).1 + 1 : Nat) : Int)
        rw [Nat.cast_add, Nat.cast_one, ihe, stepPoint_shift]
    · rw [if_neg hc]
      refine ⟨fun i hi => absurd hi (Nat.not_lt_zero i), ?_⟩
      show p = stepPoint p d ((0 : Nat) : Int)
      rw [Nat.cast_zero, stepPoint_zero]

theorem is_winning_guards (s : GameState) (m : Point) (pl : Player)
    (h : is_winning_placement s m pl = true) :
    isOnGrid m = true ∧ gridIsEmptyAt s.grid m = true := by
  unfold is_winning_placement at h
  by_cases hg : (!isOnGrid m || !gridIsEmptyAt s.grid m) = true
  · rw [if_pos hg] at h
    cases h
  · simp only [Bool.or_eq_true, Bool.not_eq_true'] at hg
    push_neg at hg
    constructor
    · cases hon : isOnGrid m
      · exact absurd hon hg.1
      · rfl
    · cases hemp : gridIsEmptyAt s.grid m
      · exact absurd hemp hg.2
      · rfl

/-- A winning placement has a same-color stone on an adjacent cell along the
    winning axis. -/
theorem is_winning_adjacent (s : GameState) (m : Point) (pl : Player)
    (h : is_winning_placement s m pl = true) :
    ∃ d ∈ DIRECTIONS,
      lookupGrid s.grid ⟨m.row + d.1, m.col + d.2⟩ = some pl ∨
      lookupGrid s.grid ⟨m.row - d.1, m.col - d.2⟩ = some pl := by
  unfold is_winning_placement at h
  split at h
  · cases h
  · rw [List.any_eq_true] at h
    obtain ⟨d, hd, hcount⟩ := h
    simp only [decide_eq_true_eq] at hcount
    refine ⟨d, hd, ?_⟩
    unfold WIN_LENGTH at hcount
    by_cases hf : 1 ≤ (loopScan s.grid pl d ⟨m.row + d.1, m.col + d.2⟩ 16).1
    · exact Or.inl (loopScan_pos _ _ _ _ _ hf).2
    · have hb : 1 ≤ (loopScan s.grid pl (-d.1, -d.2) ⟨m.row - d.1, m.col - d.2⟩ 16).1 := by
        omega
      exact Or.inr (loopScan_pos _ _ _ _ _ hb).2

/-- No winning placement exists on the empty board. -/
theorem no_win_on_empty (s : GameState) (hg : s.grid = []) (m : Point) (pl : Player) :
    is_winning_placement s m pl = false := by
  cases hw : is_winning_placement s m pl
  · rfl
  · obtain ⟨d, _, hor⟩ := is_winning_adjacent s m pl hw
    rw [hg] at hor
    rcases hor with h1 | h1 <;> cases h1

theorem mem_pushNew_self (l : List Point) (p : Point) : p ∈ pushNew l p := by
  unfold pushNew
  split
  · assumption
  · simp

theorem mem_pushNew_of_mem (l : List Point) (p x : Point) (h : x ∈ l) :
    x ∈ pushNew l p := by
  unfold pushNew
  split
  · exact h
  · exact List.mem_append_left _ h

theorem mem_dedupFirst_aux (x : Point) :
    ∀ (n : Nat) (l : List Point), l.length ≤ n → (x ∈ dedupFirst l ↔ x ∈ l) := by
  intro n
  induction n with
  | zero =>
    intro l hl
    cases l with
    | nil => simp [dedupFirst]
    | cons y ys => simp at hl
  | succ k ih =>
    intro l hl
    cases l with
    | nil => simp [dedupFirst]
    | cons y ys =>
      rw [dedupFirst]
      by_cases hxy : x = y
      · simp [hxy]
      · simp only [List.mem_cons, hxy, false_or]
        rw [ih _ (le_trans (List.length_filter_le _ _)
          (by simp only [List.length_cons] at hl; omega))]
        simp only [List.mem_filter, Bool.not_eq_true', beq_eq_false_iff_ne]
        exact ⟨fun h1 => h1.1, fun h1 => ⟨h1, hxy⟩⟩

theorem mem_dedupFirst (x : Point) (l : List Point) : x ∈ dedupFirst l ↔ x ∈ l :=
  mem_dedupFirst_aux x l.length l le_rfl

theorem distStep_mono1 (g : Grid) (pt : Point) (acc2 : List Point × List Point)
    (o : Int × Int) (x : Point) (h : x ∈ acc2.1) : x ∈ (distStep g pt acc2 o).1 := by
  simp only [distStep]
  split
  · exact h
  · split
    · exact mem_pushNew_of_mem _ _ _ h
    · exact h

theorem innerFold_mono1 (g : Grid) (pt : Point) :
    ∀ (os : List (Int × Int)) (acc2 : List Point × List Point) (x : Point),
      x ∈ acc2.1 → x ∈ (os.foldl (distStep g pt) acc2).1 := by
  intro os
  induction os with
  | nil => intro acc2 x h; exact h
  | cons o rest ih =>
    intro acc2 x h
    rw [List.foldl_cons]
    exact ih _ x (distStep_mono1 g pt acc2 o x h)

theorem innerFold_adds (g : Grid) (pt np : Point) :
    ∀ (os : List (Int × Int)) (acc2 : List Point × List Point) (o : Int × Int),
      o ∈ os → np = ⟨pt.row + o.1, pt.col + o.2⟩ →
      isOnGrid np = true → gridIsEmptyAt g np = true →
      (o.1.natAbs ≤ 1 && o.2.natAbs ≤ 1) = true →
      np ∈ (os.foldl (distStep g pt) acc2).1 := by
  intro os
  induction os with
  | nil => intro acc2 o ho; cases ho
  | cons o' rest ih =>
    intro acc2 o ho hnp hong hemp hsmall
    rw [List.foldl_cons]
    rcases List.mem_cons.mp ho with rfl | ho'
    · apply innerFold_mono1 g pt rest
      simp only [distStep, ← hnp]
      rw [if_neg (by simp [hong, hemp]), if_pos hsmall]
      exact mem_pushNew_self _ _
    · exact ih _ o ho' hnp hong hemp hsmall

theorem outerFold_mono1 (g : Grid) :
    ∀ (occ : List Point) (acc : List Point × List Point) (x : Point),
      x ∈ acc.1 →
      x ∈ (occ.foldl (fun acc pt => neighborOffsets.foldl (distStep g pt) acc) acc).1 := by
  intro occ
  induction occ with
  | nil => intro acc x h; exact h
  | cons pt rest ih =>
    intro acc x h
    rw [List.foldl_cons]
    exact ih _ x (innerFold_mono1 g pt neighborOffsets acc x h)

theorem dist1_adds (g : Grid) :
    ∀ (occ : List Point) (acc : List Point × List Point) (pt np : Point) (o : Int × Int),
      pt ∈ occ → o ∈ neighborOffsets → np = ⟨pt.row + o.1, pt.col + o.2⟩ →
      isOnGrid np = true → gridIsEmptyAt g np = true →
      (o.1.natAbs ≤ 1 && o.2.natAbs ≤ 1) = true →
      np ∈ (occ.foldl (fun acc pt => neighborOffsets.foldl (distStep g pt) acc) acc).1 := by
  intro occ
  induction occ with
  | nil => intro acc pt np o hpt; cases hpt
  | cons pt' rest ih =>
    intro acc pt np o hpt ho hnp hong hemp hsmall
    rw [List.foldl_cons]
    rcases List.mem_cons.mp hpt with rfl | hpt'
    · exact outerFold_mono1 g rest _ np
        (innerFold_adds g pt np neighborOffsets acc o ho hnp hong hemp hsmall)
    · exact ih _ pt np o hpt' ho hnp hong hemp hsmall

/-- Every winning placement lies in the Chebyshev-distance-1 neighbor set:
    it is adjacent along the winning axis to a same-color stone. -/
theorem win_mem_dist1 (s : GameState) (m : Point) (pl : Player) (hwf : WF s)
    (hwin : is_winning_placement s m pl = true) :
    m ∈ (distSets s.grid (s.moves.map fun mv => mv.point)).1 := by
  obtain ⟨hon, hemp⟩ := is_winning_guards s m pl hwin
  obtain ⟨d, hd, hor⟩ := is_winning_adjacent s m pl hwin
  unfold distSets
  rcases hor with h1 | h1
  · -- stone ahead of m: m = (m + d) + (-d)
    refine dist1_adds s.grid _ _ ⟨m.row + d.1, m.col + d.2⟩ m (-d.1, -d.2)
      (lookup_some_mem_occ s _ pl hwf h1) ?_ ?_ hon hemp ?_
    · simp only [DIRECTIONS, List.mem_cons, List.mem_singleton,
        List.not_mem_nil, or_false] at hd
      rcases hd with rfl | rfl | rfl | rfl <;> decide
    · cases m
      simp only [Point.mk.injEq]
      constructor <;> ring
    · simp only [DIRECTIONS, List.mem_cons, List.mem_singleton,
        List.not_mem_nil, or_false] at hd
      rcases hd with rfl | rfl | rfl | rfl <;> decide
  · -- stone behind m: m = (m - d) + d
    refine dist1_adds s.grid _ _ ⟨m.row - d.1, m.col - d.2⟩ m (d.1, d.2)
      (lookup_some_mem_occ s _ pl hwf h1) ?_ ?_ hon hemp ?_
    · simp only [DIRECTIONS, List.mem_cons, List.mem_singleton,
        List.not_mem_nil, or_false] at hd
      rcases hd with rfl | rfl | rfl | rfl <;> decide
    · cases m
      simp only [Point.mk.injEq]
      constructor <;> ring
    · simp only [DIRECTIONS, List.mem_cons, List.mem_singleton,
        List.not_mem_nil, or_false] at hd
      rcases hd with rfl | rfl | rfl | rfl <;> decide

/-- A point with a run of ≥ 4 stones on one side (and the usual legality
    guards) is a winning placement. -/
theorem is_winning_of_run (s : GameState) (e : Point) (pl : Player) (d : Int × Int)
    (hd : d ∈ DIRECTIONS) (hon : isOnGrid e = true) (hemp : gridIsEmptyAt s.grid e = true)
    (hrun : 4 ≤ (loopScan s.grid pl d ⟨e.row + d.1, e.col + d.2⟩ 16).1 ∨
            4 ≤ (loopScan s.grid pl (-d.1, -d.2) ⟨e.row - d.1, e.col - d.2⟩ 16).1) :
    is_winning_placement s e pl = true := by
  unfold is_winning_placement
  rw [if_neg (by simp [hon, hemp])]
  rw [List.any_eq_true]
  refine ⟨d, hd, ?_⟩
  simp only [decide_eq_true_eq]
  unfold WIN_LENGTH
  omega

theorem pointExt (a b : Point) (h1 : a.row = b.row) (h2 : a.col = b.col) : a = b := by
  cases a; cases b; simp_all

/-- A candidate square that is legal and a winning placement for `pl`. -/
def GoodSquare (s : GameState) (pl : Player) (e : Point) : Prop :=
  isOnGrid e = true ∧ gridIsEmptyAt s.grid e = true ∧
  is_winning_placement s e pl = true

/-- Every square added by `_four_extension_squares`'s loop body is an empty
    endpoint of an exactly-4 group, hence a winning placement for `pl`. -/
theorem fourStep_squares_good (s : GameState) (pl : Player) (d : Int × Int)
    (hd : d ∈ DIRECTIONS) (acc : FourAcc) (pt : Point) :
    ∀ e ∈ (fourStep s.grid pl d acc pt).squares,
      e ∈ acc.squares ∨ GoodSquare s pl e := by
  intro e he
  simp only [fourStep] at he
  by_cases h1 : pt ∈ acc.visited
  · rw [if_pos h1] at he; exact Or.inl he
  rw [if_neg h1] at he
  by_cases h2 : (!(lookupGrid s.grid pt == some pl)) = true
  · rw [if_pos h2] at he; exact Or.inl he
  rw [if_neg h2] at he
  by_cases h3 : walkBack s.grid pl d pt 16 ∈ acc.visited
  · rw [if_pos h3] at he; exact Or.inl he
  rw [if_neg h3] at he
  by_cases h4 : (loopScanV s.grid pl d (walkBack s.grid pl d pt 16) 16).1 = 4
  case neg =>
    rw [if_neg h4] at he
    exact Or.inl he
  case pos =>
    rw [if_pos h4] at he
    set start := walkBack s.grid pl d pt 16 with hstartdef
    obtain ⟨hstones, hend⟩ := loopScanV_spec s.grid pl d 16 start
    rw [h4] at hstones hend
    have hafter : (loopScanV s.grid pl d start 16).2.1 = stepPoint start d 4 := by
      rw [hend]
      norm_num
    have he' : e ∈ acc.squares ++
        (if isOnGrid (⟨start.row - d.1, start.col - d.2⟩ : Point) &&
            gridIsEmptyAt s.grid ⟨start.row - d.1, start.col - d.2⟩ then
          [(⟨start.row - d.1, start.col - d.2⟩ : Point)] else []) ++
        (if isOnGrid (loopScanV s.grid pl d start 16).2.1 &&
            gridIsEmptyAt s.grid (loopScanV s.grid pl d start 16).2.1 then
          [(loopScanV s.grid pl d start 16).2.1] else []) := he
    rcases List.mem_append.mp he' with hin | hin2
    · rcases List.mem_append.mp hin with hin0 | hin1
      · exact Or.inl hin0
      · -- e is the `before` endpoint
        by_cases hc1 : (isOnGrid (⟨start.row - d.1, start.col - d.2⟩ : Point) &&
            gridIsEmptyAt s.grid ⟨start.row - d.1, start.col - d.2⟩) = true
        · rw [if_pos hc1] at hin1
          rw [List.mem_singleton] at hin1
          subst hin1
          rw [Bool.and_eq_true] at hc1
          refine Or.inr ⟨hc1.1, hc1.2, ?_⟩
          have hpteq : (⟨(⟨start.row - d.1, start.col - d.2⟩ : Point).row + d.1,
              (⟨start.row - d.1, start.col - d.2⟩ : Point).col + d.2⟩ : Point) = start := by
            refine pointExt _ _ ?_ ?_
            · show start.row - d.1 + d.1 = start.row
              ring
            · show start.col - d.2 + d.2 = start.col
              ring
          refine is_winning_of_run s _ pl d hd hc1.1 hc1.2 (Or.inl ?_)
          rw [hpteq]
          exact loopScan_ge s.grid pl d 16 4 start (by omega)
            (fun i hi => hstones i hi)
        · rw [if_neg hc1] at hin1
          cases hin1
    · -- e is the `after` endpoint
      by_cases hc2 : (isOnGrid (loopScanV s.grid pl d start 16).2.1 &&
          gridIsEmptyAt s.grid (loopScanV s.grid pl d start 16).2.1) = true
      · rw [if_pos hc2] at hin2
        rw [List.mem_singleton] at hin2
        subst hin2
        rw [Bool.and_eq_true] at hc2
        refine Or.inr ⟨hc2.1, hc2.2, ?_⟩
        refine is_winning_of_run s _ pl d hd hc2.1 hc2.2 (Or.inr ?_)
        apply loopScan_ge s.grid pl (-d.1, -d.2) 16 4 _ (by omega)
        intro j hj
        have hback : stepPoint ⟨(loopScanV s.grid pl d start 16).2.1.row - d.1,
            (loopScanV s.grid pl d start 16).2.1.col - d.2⟩ (-d.1, -d.2) (j : Int) =
            stepPoint start d ((3 - j : Nat) : Int) := by
          rw [hafter]
          have hcast : ((3 - j : Nat) : Int) = 3 - (j : Int) := by omega
          rw [hcast]
          simp only [stepPoint, Point.mk.injEq]
          constructor <;> ring
        rw [hback]
        exact hstones (3 - j) (by omega)
      · rw [if_neg hc2] at hin2
        cases hin2

theorem fourFold_inner_good (s : GameState) (pl : Player) (d : Int × Int)
    (hd : d ∈ DIRECTIONS) :
    ∀ (pts : List Point) (acc : FourAcc),
      (∀ e ∈ acc.squares, GoodSquare s pl e) →
      ∀ e ∈ (pts.foldl (fourStep s.grid pl d) acc).squares, GoodSquare s pl e := by
  intro pts
  induction pts with
  | nil => intro acc hacc e he; exact hacc e he
  | cons pt rest ih =>
    intro acc hacc e he
    rw [List.foldl_cons] at he
    refine ih _ ?_ e he
    intro x hx
    rcases fourStep_squares_good s pl d hd acc pt x hx with h | h
    · exact hacc x h
    · exact h

/-- Every square returned by `_four_extension_squares` is an on-grid empty
    winning placement for that player. -/
theorem four_squares_good (s : GameState) (pl : Player) :
    ∀ e ∈ four_extension_squares s pl, GoodSquare s pl e := by
  have main : ∀ (ds : List (Int × Int)), (∀ d ∈ ds, d ∈ DIRECTIONS) →
      ∀ (acc : FourAcc), (∀ e ∈ acc.squares, GoodSquare s pl e) →
      ∀ e ∈ (ds.foldl (fun acc d =>
        (s.moves.map fun m => m.point).foldl (fourStep s.grid pl d)
          { visited := [], squares := acc.squares }) acc).squares, GoodSquare s pl e := by
    intro ds
    induction ds with
    | nil => intro _ acc hacc e he; exact hacc e he
    | cons d rest ih =>
      intro hds acc hacc e he
      rw [List.foldl_cons] at he
      refine ih (fun d' hd' => hds d' (List.mem_cons_of_mem _ hd')) _ ?_ e he
      intro x hx
      exact fourFold_inner_good s pl d (hds d (List.mem_cons_self _ _)) _
        { visited := [], squares := acc.squares } hacc x hx
  intro e he
  simp only [four_extension_squares] at he
  exact main DIRECTIONS (fun d hd => hd) _ (fun x hx => absurd hx (List.not_mem_nil x)) e he

/-- When the opponent has a four, the priority-2 candidate set contains an
    opponent winning square (= the forced blocking square). -/
theorem prio2_covers (s : GameState)
    (hof : (four_extension_squares s s.current_player.other).isEmpty = false) :
    ∃ c ∈ prio2_combined s,
      is_winning_placement s c s.current_player.other = true := by
  have hne : four_extension_squares s s.current_player.other ≠ [] := by
    intro h
    rw [h] at hof
    cases hof
  obtain ⟨e, he⟩ := List.exists_mem_of_ne_nil _ hne
  have hgood := four_squares_good s s.current_player.other e he
  refine ⟨e, ?_, hgood.2.2⟩
  unfold prio2_combined
  rw [if_neg (by simp [hof])]
  rw [mem_dedupFirst, List.mem_filter]
  exact ⟨List.mem_append_left _ he, by simp [hgood.1, hgood.2.1]⟩

/-- In the general branch (priorities 3–6), a winning move for either side
    always survives: priority 3 returns the mover's wins, priority 4 the
    blocking squares, and both contain every winning placement. -/
theorem candidates_general_covers (s : GameState) (hwf : WF s) (m : Point)
    (hm : is_winning_placement s m s.current_player = true ∨
          is_winning_placement s m s.current_player.other = true) :
    ∃ c ∈ candidates_general s,
      is_winning_placement s c s.current_player = true ∨
      is_winning_placement s c s.current_player.other = true := by
  simp only [candidates_general]
  set CAND := (distSets s.grid (s.moves.map fun mv => mv.point)).1 ++
    ((distSets s.grid (s.moves.map fun mv => mv.point)).2.filter fun p =>
      !(decide (p ∈ (distSets s.grid (s.moves.map fun mv => mv.point)).1))) with hCAND
  have hmemCAND : ∀ (m' : Point) (pl : Player), is_winning_placement s m' pl = true →
      m' ∈ CAND := by
    intro m' pl hw
    rw [hCAND]
    exact List.mem_append_left _ (win_mem_dist1 s m' pl hwf hw)
  set MW := CAND.filter fun mv => is_winning_placement s mv s.current_player with hMW
  by_cases hmw : MW.isEmpty = true
  · -- no immediate win for the mover
    rw [if_neg (by simp [hmw])]
    rcases hm with hcur | hopp
    · exfalso
      have : m ∈ MW := by
        rw [hMW, List.mem_filter]
        exact ⟨hmemCAND m _ hcur, hcur⟩
      rw [List.isEmpty_iff.mp hmw] at this
      cases this
    · set OW := CAND.filter fun mv => is_winning_placement s mv s.current_player.other
        with hOW
      have hmow : m ∈ OW := by
        rw [hOW, List.mem_filter]
        exact ⟨hmemCAND m _ hopp, hopp⟩
      have hownem : OW.isEmpty = false := by
        cases how : OW.isEmpty
        · rfl
        · rw [List.isEmpty_iff.mp how] at hmow
          cases hmow
      rw [if_pos (by simp [hownem])]
      refine ⟨m, ?_, Or.inr hopp⟩
      rw [mem_dedupFirst, List.mem_filter]
      exact ⟨hmow, (is_winning_guards s m _ hopp).2⟩
  · -- the mover has an immediate win: priority 3 fires
    rw [if_pos (by simp [hmw])]
    have hne : MW ≠ [] := by
      intro h
      rw [h] at hmw
      simp at hmw
    obtain ⟨c, hc⟩ := List.exists_mem_of_ne_nil _ hne
    exact ⟨c, hc, Or.inl (List.mem_filter.mp hc).2⟩

/-- **C2**: for every position, if the side to move or the opponent has a
    winning placement (contiguous or gapped run of 5+), `generate_candidates`
    returns a set containing a winning move for the mover or a square that
    blocks an opponent win (= an opponent winning placement); no priority
    rule — including priority 2's response to an exactly-4 group — can
    produce a set omitting both. -/
theorem claim_C2_candidates_contain_win_or_block (s : GameState) (hwf : WF s)
    (hex : ∃ m, is_winning_placement s m s.current_player = true ∨
      is_winning_placement s m s.current_player.other = true) :
    ∃ c ∈ generate_candidates s,
      is_winning_placement s c s.current_player = true ∨
      is_winning_placement s c s.current_player.other = true := by
  obtain ⟨m, hm⟩ := hex
  by_cases hemp : s.moves.isEmpty = true
  · exfalso
    have hgnil : s.grid = [] := by
      obtain ⟨hg, _, _, _⟩ := hwf
      rw [hg, List.isEmpty_iff.mp hemp]
      rfl
    rcases hm with h | h <;> (rw [no_win_on_empty s hgnil m _] at h; cases h)
  · unfold generate_candidates
    rw [if_neg hemp]
    by_cases hcond : ((!(four_extension_squares s s.current_player.other).isEmpty) &&
        !(prio2_combined s).isEmpty) = true
    · rw [if_pos hcond]
      have hof : (four_extension_squares s s.current_player.other).isEmpty = false := by
        rw [Bool.and_eq_true] at hcond
        simpa using hcond.1
      obtain ⟨c, hc, hw⟩ := prio2_covers s hof
      exact ⟨c, hc, Or.inr hw⟩
    · rw [if_neg hcond]
      exact candidates_general_covers s hwf m hm

/-- Concrete position for the C2 witness: white (to move) must block black's
    four on row 5; the candidate set contains the winning/blocking square. -/
def c2state : GameState :=
  { grid := [(⟨5, 5⟩, .black), (⟨1, 1⟩, .white), (⟨5, 6⟩, .black), (⟨1, 2⟩, .white),
             (⟨5, 7⟩, .black), (⟨1, 3⟩, .white), (⟨5, 8⟩, .black)],
    current_player := .white,
    moves := [⟨⟨5, 5⟩, .black⟩, ⟨⟨1, 1⟩, .white⟩, ⟨⟨5, 6⟩, .black⟩, ⟨⟨1, 2⟩, .white⟩,
              ⟨⟨5, 7⟩, .black⟩, ⟨⟨1, 3⟩, .white⟩, ⟨⟨5, 8⟩, .black⟩],
    winner := none, is_over := false }

/-- Witness for C2: black threatens (5,9); the candidates contain a
    win/block square. -/
theorem claim_C2_witness :
    ∃ c ∈ generate_candidates c2state,
      is_winning_placement c2state c c2state.current_player = true ∨
      is_winning_placement c2state c c2state.current_player.other = true :=
  claim_C2_candidates_contain_win_or_block c2state
    ⟨by decide, by decide, by decide, fun _ => by decide⟩
    ⟨⟨5, 9⟩, Or.inr (by decide)⟩

/-! ## Legality of the candidate set, and totality of `apply_move` -/

theorem apply_move_total (s : GameState) (p : Point) (hov : s.is_over = false)
    (hon : isOnGrid p = true) (hemp : gridIsEmptyAt s.grid p = true) :
    ∃ s', apply_move s p = some s' := by
  unfold apply_move
  rw [if_neg (by simp [hov]), if_neg (by simp [hon]), if_neg (by simp [hemp])]
  split
  · exact ⟨_, rfl⟩
  · split
    · exact ⟨_, rfl⟩
    · exact ⟨_, rfl⟩

/-- A point is legal: on the grid and empty. -/
def LegalPt (g : Grid) (p : Point) : Prop :=
  isOnGrid p = true ∧ gridIsEmptyAt g p = true

theorem distStep_legal (g : Grid) (pt : Point) (acc2 : List Point × List Point)
    (o : Int × Int)
    (h1 : ∀ x ∈ acc2.1, LegalPt g x) (h2 : ∀ x ∈ acc2.2, LegalPt g x) :
    (∀ x ∈ (distStep g pt acc2 o).1, LegalPt g x) ∧
    (∀ x ∈ (distStep g pt acc2 o).2, LegalPt g x) := by
  simp only [distStep]
  by_cases hguard : (!isOnGrid (⟨pt.row + o.1, pt.col + o.2⟩ : Point) ||
      !gridIsEmptyAt g ⟨pt.row + o.1, pt.col + o.2⟩) = true
  · rw [if_pos hguard]
    exact ⟨h1, h2⟩
  · rw [if_neg hguard]
    have hleg : LegalPt g ⟨pt.row + o.1, pt.col + o.2⟩ := by
      simp only [Bool.or_eq_true, Bool.not_eq_true'] at hguard
      push_neg at hguard
      constructor
      · cases hx : isOnGrid (⟨pt.row + o.1, pt.col + o.2⟩ : Point)
        · exact absurd hx hguard.1
        · rfl
      · cases hx : gridIsEmptyAt g ⟨pt.row + o.1, pt.col + o.2⟩
        · exact absurd hx hguard.2
        · rfl
    split
    · refine ⟨?_, h2⟩
      intro x hx
      unfold pushNew at hx
      split at hx
      · exact h1 x hx
      · rcases List.mem_append.mp hx with h | h
        · exact h1 x h
        · rw [List.mem_singleton] at h
          rw [h]
          exact hleg
    · refine ⟨h1, ?_⟩
      intro x hx
      unfold pushNew at hx
      split at hx
      · exact h2 x hx
      · rcases List.mem_append.mp hx with h | h
        · exact h2 x h
        · rw [List.mem_singleton] at h
          rw [h]
          exact hleg

theorem innerFold_legal (g : Grid) (pt : Point) :
    ∀ (os : List (Int × Int)) (acc2 : List Point × List Point),
      (∀ x ∈ acc2.1, LegalPt g x) → (∀ x ∈ acc2.2, LegalPt g x) →
      (∀ x ∈ (os.foldl (distStep g pt) acc2).1, LegalPt g x) ∧
      (∀ x ∈ (os.foldl (distStep g pt) acc2).2, LegalPt g x) := by
  intro os
  induction os with
  | nil => intro acc2 h1 h2; exact ⟨h1, h2⟩
  | cons o rest ih =>
    intro acc2 h1 h2
    rw [List.foldl_cons]
    obtain ⟨h1', h2'⟩ := distStep_legal g pt acc2 o h1 h2
    exact ih _ h1' h2'

theorem distSets_legal (g : Grid) (occ : List Point) :
    (∀ x ∈ (distSets g occ).1, LegalPt g x) ∧
    (∀ x ∈ (distSets g occ).2, LegalPt g x) := by
  unfold distSets
  have main : ∀ (occ' : List Point) (acc : List Point × List Point),
      (∀ x ∈ acc.1, LegalPt g x) → (∀ x ∈ acc.2, LegalPt g x) →
      (∀ x ∈ (occ'.foldl (fun acc pt => neighborOffsets.foldl (distStep g pt) acc) acc).1,
        LegalPt g x) ∧
      (∀ x ∈ (occ'.foldl (fun acc pt => neighborOffsets.foldl (distStep g pt) acc) acc).2,
        LegalPt g x) := by
    intro occ'
    induction occ' with
    | nil => intro acc h1 h2; exact ⟨h1, h2⟩
    | cons pt rest ih =>
      intro acc h1 h2
      rw [List.foldl_cons]
      obtain ⟨h1', h2'⟩ := innerFold_legal g pt neighborOffsets acc h1 h2
      exact ih _ h1' h2'
  exact main occ ([], []) (fun x hx => absurd hx (List.not_mem_nil x))
    (fun x hx => absurd hx (List.not_mem_nil x))

/-- Every candidate returned by `generate_candidates` is on the grid and
    empty in the input position. -/
theorem candidates_legal (s : GameState) (hwf : WF s) :
    ∀ c ∈ generate_candidates s, LegalPt s.grid c := by
  intro c hc
  unfold generate_candidates at hc
  by_cases hemp : s.moves.isEmpty = true
  · rw [if_pos hemp] at hc
    rw [List.mem_singleton] at hc
    subst hc
    have hgnil : s.grid = [] := by
      obtain ⟨hg, _, _, _⟩ := hwf
      rw [hg, List.isEmpty_iff.mp hemp]
      rfl
    exact ⟨by decide, by rw [hgnil]; rfl⟩
  · rw [if_neg hemp] at hc
    split at hc
    · -- priority 2
      unfold prio2_combined at hc
      split at hc
      · cases hc
      · rw [mem_dedupFirst, List.mem_filter, Bool.and_eq_true] at hc
        exact ⟨hc.2.1, hc.2.2⟩
    · -- general branch
      simp only [candidates_general] at hc
      obtain ⟨hleg1, hleg2⟩ := distSets_legal s.grid (s.moves.map fun m => m.point)
      have hlegCAND : ∀ x ∈ (distSets s.grid (s.moves.map fun m => m.point)).1 ++
          ((distSets s.grid (s.moves.map fun m => m.point)).2.filter fun p =>
            !(decide (p ∈ (distSets s.grid (s.moves.map fun m => m.point)).1))),
          LegalPt s.grid x := by
        intro x hx
        rcases List.mem_append.mp hx with h | h
        · exact hleg1 x h
        · exact hleg2 x (List.mem_filter.mp h).1
      split at hc
      · exact hlegCAND c (List.mem_filter.mp hc).1
      · split at hc
        · rw [mem_dedupFirst, List.mem_filter] at hc
          exact hlegCAND c (List.mem_filter.mp hc.1).1
        · split at hc
          · split at hc
            · rw [mem_dedupFirst] at hc
              rcases List.mem_append.mp hc with h | h
              · exact hlegCAND c (List.mem_filter.mp h).1
              · have := (List.mem_filter.mp h).2
                rw [Bool.and_eq_true] at this
                exact ⟨this.1, this.2⟩
            · exact hlegCAND c hc
          · exact hlegCAND c hc

/-! ## Quiescence search (`_quiescence`, C7)

State mutation is threaded explicitly: each function returns the final
state alongside the score, and every `apply_move` is paired with an
`undo_move` on the state returned by the recursive call, exactly as in the
source.  A Python `AssertionError` propagates as `none`. -/

/-- The `for move in forcing` loop of `_quiescence`: apply, recurse (the
    `recur` argument is `_quiescence` at `qdepth - 1`, supplied by the
    caller), undo, return the score on `score ≥ β`, otherwise continue with
    `α := max α score`. -/
def quiesceLoop (recur : GameState → Int → Int → Int → Option (Int × GameState))
    (s : GameState) (beta : Int) (color : Int) :
    List Point → Int → Option (Int × GameState)
  | [], alpha => some (alpha, s)
  | mv :: rest, alpha => do
    let s₁ ← apply_move s mv
    let r ← recur s₁ (-beta) (-alpha) (-color)
    let score := -r.1
    let s₃ := (undo_move r.2).1
    if score ≥ beta then some (score, s₃)
    else quiesceLoop recur s₃ beta color rest (max alpha score)

/-- The forcing moves explored by `_quiescence`: immediate wins first, then
    threats with heuristic ≥ `FORCING_MOVE_HEURISTIC = 12_000`, capped at
    `MAX_QUIESCENCE_FORCING = 5`. -/
def forcingMoves (s : GameState) : List Point :=
  ((generate_candidates s).filter (fun m => is_winning_placement s m s.current_player) ++
    (generate_candidates s).filter fun m =>
      !(is_winning_placement s m s.current_player) && move_heuristic s m ≥ 12000).take 5

/-- `_quiescence`: stand-pat pruning, then the forcing-move loop, recursing
    with `(-β, -α, -color, qdepth - 1)`. -/
def quiescence : Nat → GameState → Int → Int → Int → Option (Int × GameState)
  | qdepth, s, alpha, beta, color =>
    if s.is_over then some (color * evaluate s, s)
    else if color * evaluate s ≥ beta then some (color * evaluate s, s)
    else
      match qdepth with
      | 0 => some (color * evaluate s, s)
      | qd + 1 =>
        if (forcingMoves s).isEmpty then some (color * evaluate s, s)
        else quiesceLoop (fun s' a b c => quiescence qd s' a b c) s beta color
          (forcingMoves s) (max alpha (color * evaluate s))

theorem forcingMoves_subset (s : GameState) :
    ∀ m ∈ forcingMoves s, m ∈ generate_candidates s := by
  intro m hm
  unfold forcingMoves at hm
  have hm' := List.take_subset 5 _ hm
  rcases List.mem_append.mp hm' with h | h
  · exact (List.mem_filter.mp h).1
  · exact (List.mem_filter.mp h).1

/-- The forcing loop leaves the position unchanged and always succeeds, given
    that the recursive search does. -/
theorem quiesceLoop_pure (recur : GameState → Int → Int → Int → Option (Int × GameState))
    (hrecur : ∀ (s' : GameState) (a b c : Int), WF s' → ∃ v, recur s' a b c = some (v, s')) :
    ∀ (ms : List Point) (s : GameState) (beta color alpha : Int),
      WF s → s.is_over = false → (∀ m ∈ ms, LegalPt s.grid m) →
      ∃ v, quiesceLoop recur s beta color ms alpha = some (v, s) := by
  intro ms
  induction ms with
  | nil => intro s β c α _ _ _; exact ⟨α, rfl⟩
  | cons mv rest ih =>
    intro s β c α hwf hov hleg
    have hlm := hleg mv (List.mem_cons_self _ _)
    obtain ⟨s₁, hs₁⟩ := apply_move_total s mv hov hlm.1 hlm.2
    have hwf₁ := WF_apply s mv s₁ hwf hs₁
    obtain ⟨w, hw⟩ := hrecur s₁ (-β) (-α) (-c) hwf₁
    have hundo : undo_move s₁ = (s, some ⟨mv, s.current_player⟩) :=
      undo_after_apply s s₁ mv hwf hs₁
    unfold quiesceLoop
    rw [hs₁]
    show ∃ v, (do
        let r ← recur s₁ (-β) (-α) (-c)
        let score : Int := -r.1
        let s₃ : GameState := (undo_move r.2).1
        if score ≥ β then some (score, s₃)
        else quiesceLoop recur s₃ β c rest (max α score)) = some (v, s)
    rw [hw]
    show ∃ v, (if -w ≥ β then some (-w, (undo_move s₁).1)
        else quiesceLoop recur (undo_move s₁).1 β c rest (max α (-w))) = some (v, s)
    have h₃ : (undo_move s₁).1 = s := by rw [hundo]
    rw [h₃]
    by_cases hcut : -w ≥ β
    · rw [if_pos hcut]
      exact ⟨-w, rfl⟩
    · rw [if_neg hcut]
      exact ih s β c (max α (-w)) hwf hov
        (fun m hm => hleg m (List.mem_cons_of_mem _ hm))

/-- `_quiescence` never mutates the position (every apply is paired with an
    undo) and never hits an assertion. -/
theorem quiescence_pure : ∀ (qd : Nat) (s : GameState) (alpha beta color : Int),
    WF s → ∃ v, quiescence qd s alpha beta color = some (v, s) := by
  intro qd
  induction qd with
  | zero =>
    intro s α β c _
    unfold quiescence
    by_cases h1 : s.is_over = true
    · rw [if_pos h1]; exact ⟨_, rfl⟩
    rw [if_neg h1]
    by_cases h2 : c * evaluate s ≥ β
    · rw [if_pos h2]; exact ⟨_, rfl⟩
    rw [if_neg h2]
    exact ⟨_, rfl⟩
  | succ qd ih =>
    intro s α β c hwf
    unfold quiescence
    by_cases h1 : s.is_over = true
    · rw [if_pos h1]; exact ⟨_, rfl⟩
    rw [if_neg h1]
    by_cases h2 : c * evaluate s ≥ β
    · rw [if_pos h2]; exact ⟨_, rfl⟩
    rw [if_neg h2]
    show ∃ v, (if (forcingMoves s).isEmpty then some (c * evaluate s, s)
        else quiesceLoop (fun s' a b c => quiescence qd s' a b c) s β c
          (forcingMoves s) (max α (c * evaluate s))) = some (v, s)
    by_cases h3 : (forcingMoves s).isEmpty = true
    · rw [if_pos h3]; exact ⟨_, rfl⟩
    · rw [if_neg h3]
      exact quiesceLoop_pure _ (fun s' a b c hw => ih s' a b c hw)
        (forcingMoves s) s β c _ hwf (by simpa using h1)
        (fun m hm => candidates_legal s hwf m (forcingMoves_subset s m hm))

/-- Position for C7: black to move has a four on row 5 (stand-pat 48500),
    and the forcing moves complete it. -/
def c7state : GameState :=
  { grid := [(⟨5, 5⟩, .black), (⟨1, 1⟩, .white), (⟨5, 6⟩, .black), (⟨1, 2⟩, .white),
             (⟨5, 7⟩, .black), (⟨1, 3⟩, .white), (⟨5, 8⟩, .black), (⟨12, 12⟩, .white)],
    current_player := .black,
    moves := [⟨⟨5, 5⟩, .black⟩, ⟨⟨1, 1⟩, .white⟩, ⟨⟨5, 6⟩, .black⟩, ⟨⟨1, 2⟩, .white⟩,
              ⟨⟨5, 7⟩, .black⟩, ⟨⟨1, 3⟩, .white⟩, ⟨⟨5, 8⟩, .black⟩, ⟨⟨12, 12⟩, .white⟩],
    winner := none, is_over := false }

/-- `c7state` after black wins at (5,9). -/
def c7applied : GameState :=
  { grid := c7state.grid ++ [(⟨5, 9⟩, .black)],
    current_player := .white,
    moves := c7state.moves ++ [⟨⟨5, 9⟩, .black⟩],
    winner := some .black, is_over := true }

set_option maxRecDepth 10000 in
/-- Counterexample for **C7** as stated: at `c7state` with window
    `(α, β) = (0, 50000)` the stand-pat value is `48500 < β`, so the value
    returned comes from the forcing-move loop's `score ≥ β` cutoff — yet
    `_quiescence` returns `1000000`, not the bound `β = 50000`: the cutoff
    returns the raw recursive score (fail-soft), which exceeds β. -/
theorem claim_C7_counterexample :
    quiescence 1 c7state 0 50000 1 = some (1000000, c7state) ∧
    (1 : Int) * evaluate c7state = 48500 ∧ ((48500 : Int) < 50000) ∧
    ((50000 : Int) < 1000000) :=
  ⟨by decide, by decide, by decide, by decide⟩

/-- **C7** (amended): in `_quiescence`'s forcing-move loop each forcing move
    is applied, searched recursively with `(-β, -α, -color, qdepth-1)`, and
    undone (the position is restored to `s` exactly); whenever the recursive
    score is ≥ β, the loop returns that score itself — fail-soft, so the
    returned value may exceed β — and otherwise α is updated to
    `max α score`. -/
theorem claim_C7_forcing_loop_fail_soft (qd : Nat) (s s₁ : GameState)
    (beta color alpha w : Int) (mv : Point) (rest : List Point)
    (hwf : WF s)
    (hap : apply_move s mv = some s₁)
    (hrec : quiescence qd s₁ (-beta) (-alpha) (-color) = some (w, s₁)) :
    (-w ≥ beta →
      quiesceLoop (fun s' a b c => quiescence qd s' a b c) s beta color (mv :: rest) alpha =
        some (-w, s)) ∧
    (¬(-w ≥ beta) →
      quiesceLoop (fun s' a b c => quiescence qd s' a b c) s beta color (mv :: rest) alpha =
        quiesceLoop (fun s' a b c => quiescence qd s' a b c) s beta color rest
          (max alpha (-w))) := by
  have hundo : undo_move s₁ = (s, some ⟨mv, s.current_player⟩) :=
    undo_after_apply s s₁ mv hwf hap
  have h₃ : (undo_move s₁).1 = s := by rw [hundo]
  constructor
  · intro hcut
    unfold quiesceLoop
    rw [hap]
    show (do
        let r ← quiescence qd s₁ (-beta) (-alpha) (-color)
        let score : Int := -r.1
        let s₃ : GameState := (undo_move r.2).1
        if score ≥ beta then some (score, s₃) else quiesceLoop (fun s' a b c => quiescence qd s' a b c) s₃ beta color rest (max alpha score)) = some (-w, s)
    rw [hrec]
    show (if -w ≥ beta then some (-w, (undo_move s₁).1)
        else quiesceLoop (fun s' a b c => quiescence qd s' a b c) (undo_move s₁).1
          beta color rest (max alpha (-w))) = some (-w, s)
    rw [h₃, if_pos hcut]
  · intro hncut
    conv_lhs => unfold quiesceLoop
    rw [hap]
    show (do
        let r ← quiescence qd s₁ (-beta) (-alpha) (-color)
        let score : Int := -r.1
        let s₃ : GameState := (undo_move r.2).1
        if score ≥ beta then some (score, s₃) else quiesceLoop (fun s' a b c => quiescence qd s' a b c) s₃ beta color rest (max alpha score)) =
      quiesceLoop (fun s' a b c => quiescence qd s' a b c) s beta color rest
        (max alpha (-w))
    rw [hrec]
    show (if -w ≥ beta then some (-w, (undo_move s₁).1)
        else quiesceLoop (fun s' a b c => quiescence qd s' a b c) (undo_move s₁).1
          beta color rest (max alpha (-w))) =
      quiesceLoop (fun s' a b c => quiescence qd s' a b c) s beta color rest
        (max alpha (-w))
    rw [h₃, if_neg hncut]

set_option maxRecDepth 10000 in
/-- Witness for the amended C7 at a concrete cutoff: the first forcing
    move's recursive score is 1000000 ≥ β and the loop returns it, with the
    position restored. -/
theorem claim_C7_witness :
    quiesceLoop (fun s' a b c => quiescence 0 s' a b c) c7state 50000 1
      [⟨5, 9⟩] 0 = some (1000000, c7state) := by
  have h := (claim_C7_forcing_loop_fail_soft 0 c7state c7applied 50000 1 0 (-1000000)
    ⟨5, 9⟩ [] ⟨by decide, by decide, by decide, fun _ => by decide⟩ (by decide)
    (by decide)).1 (by decide)
  norm_num at h
  exact h

/-! ## Move ordering and the PVS search driver (C1)

The transposition table, killer table and history table are threaded
explicitly; the Zobrist table is a parameter `Z`, `Zs` (its concrete values
never influence legality or state restoration). -/

/-- A transposition-table entry: `(depth, flag, score, best_move)`. -/
abbrev TTEntry := Nat × Int × Int × Option Point

/-- The transposition table (a dict keyed by the Zobrist hash). -/
abbrev TT := List (Nat × TTEntry)

/-- The killer table: two slots per ply depth. -/
abbrev Killers := List (List (Option Point))

/-- The history heuristic table. -/
abbrev Hist := List (Point × Int)

def ttLookup : TT → Nat → Option TTEntry
  | [], _ => none
  | (k, e) :: rest, key => if k = key then some e else ttLookup rest key

def ttInsert (tt : TT) (key : Nat) (e : TTEntry) : TT :=
  (key, e) :: tt.eraseP fun x => decide (x.1 = key)

def histGet : Hist → Point → Int
  | [], _ => 0
  | (p, v) :: rest, q => if p = q then v else histGet rest q

def histInsert (h : Hist) (p : Point) (v : Int) : Hist :=
  (p, v) :: h.eraseP fun x => decide (x.1 = p)

/-- `_sort_key`, with the variable-length Python tuples encoded as pairs
    (`(0,)` becomes `(0, 0)`; only tier-0 keys ever compare against each
    other at equal first component with different Python arity). -/
def sort_key (s : GameState) (tt_move : Option Point) (killer_set : List Point)
    (history : Hist) (move : Point) : Int × Int :=
  if some move = tt_move then (0, 0)
  else
    let h := move_heuristic s move
    if h ≥ 100000 then (1, -h)
    else if h ≥ 6000 then (2, -h)
    else if move ∈ killer_set then (3, -(histGet history move))
    else (4, -(h + histGet history move))

/-- Strict lexicographic order on sort keys. -/
def keyLT (a b : Int × Int) : Bool :=
  a.1 < b.1 || (a.1 == b.1 && a.2 < b.2)

/-- Stable insertion preserving the relative order of equal keys. -/
def insertSorted (key : Point → Int × Int) (x : Point) : List Point → List Point
  | [] => [x]
  | y :: ys => if keyLT (key y) (key x) then y :: insertSorted key x ys else x :: y :: ys

/-- A stable sort by key (Python `sorted` is a stable sort; a stable sort's
    output is uniquely determined by the key and input order). -/
def sortByKey (key : Point → Int × Int) : List Point → List Point
  | [] => []
  | x :: xs => insertSorted key x (sortByKey key xs)

/-- `order_moves`: sort candidates by tiered priority, best first. -/
def order_moves (s : GameState) (candidates : List Point) (tt_move : Option Point)
    (killers : List (Option Point)) (history : Hist) : List Point :=
  let killer_set := killers.filterMap id
  sortByKey (sort_key s tt_move killer_set history) candidates

theorem insertSorted_perm (key : Point → Int × Int) (x : Point) :
    ∀ l : List Point, (insertSorted key x l).Perm (x :: l) := by
  intro l
  induction l with
  | nil => exact List.Perm.refl _
  | cons y ys ih =>
    unfold insertSorted
    split
    · exact ((ih.cons y).trans (List.Perm.swap x y ys)).symm.symm
    · exact List.Perm.refl _

theorem sortByKey_perm (key : Point → Int × Int) :
    ∀ l : List Point, (sortByKey key l).Perm l := by
  intro l
  induction l with
  | nil => exact List.Perm.refl _
  | cons x xs ih =>
    unfold sortByKey
    exact (insertSorted_perm key x (sortByKey key xs)).trans (ih.cons x)

theorem order_moves_mem (s : GameState) (candidates : List Point)
    (tt_move : Option Point) (killers : List (Option Point)) (history : Hist) :
    ∀ m ∈ order_moves s candidates tt_move killers history, m ∈ candidates := by
  intro m hm
  unfold order_moves at hm
  exact (sortByKey_perm _ candidates).mem_iff.mp hm

/-- The signature of `_pvs` with the in-place mutation threaded explicitly:
    the search returns the score together with the final position and the
    final transposition, killer and history tables (a Python
    `AssertionError` propagates as `none`). -/
abbrev SearchFn := GameState → Int → Int → Int → TT → Killers → Hist → Nat →
  Option (Int × GameState × TT × Killers × Hist)

/-- `lmr_heuristics.get(move, LMR_QUIET_THRESHOLD)`: assoc-list lookup with
    default `6000`. -/
def lmrLookup : List (Point × Int) → Point → Int
  | [], _ => 6000
  | (p, v) :: rest, q => if p = q then v else lmrLookup rest q

/-- The killer-table update at a beta cutoff: shift slot 0 to slot 1 and
    store the cutoff move in slot 0, unless it already occupies slot 0
    (guarded by `depth < len(killers)` as in the source). -/
def updateKillers (killers : Killers) (depth : Nat) (move : Point) : Killers :=
  if depth < killers.length then
    let dk := killers.getD depth []
    if dk.getD 0 none = some move then killers
    else killers.set depth [some move, dk.getD 0 none]
  else killers

/-- The `if alpha < score < beta` full-window re-search after a null-window
    probe of a non-first move. -/
def pvsReSearch (recur1 : SearchFn) (alpha beta color : Int) (new_hash : Nat)
    (r₁ : Int × GameState × TT × Killers × Hist) :
    Option (Int × GameState × TT × Killers × Hist) :=
  if alpha < r₁.1 ∧ r₁.1 < beta then
    (recur1 r₁.2.1 (-beta) (-alpha) (-color) r₁.2.2.1 r₁.2.2.2.1 r₁.2.2.2.2
      new_hash).map fun r => (-r.1, r.2)
  else some r₁

/-- The per-move search of the `_pvs` loop body, between `apply_move` and
    `undo_move`: full window on the first move; otherwise LMR
    (reduced-depth null window via `recur2 = _pvs` at `depth - 2`, with a
    full-depth null-window re-search on fail-high), or a plain null window,
    followed by the full-window re-search when `α < score < β`.  Scores are
    already negated. -/
def pvsChild (recur1 recur2 : SearchFn) (s₁ : GameState) (i : Nat)
    (alpha beta color : Int) (tt : TT) (killers : Killers) (history : Hist)
    (new_hash : Nat) (lmr : Bool) : Option (Int × GameState × TT × Killers × Hist) :=
  if i = 0 then
    (recur1 s₁ (-beta) (-alpha) (-color) tt killers history new_hash).map
      fun r => (-r.1, r.2)
  else if lmr then
    (recur2 s₁ (-alpha - 1) (-alpha) (-color) tt killers history new_hash).bind
      fun a =>
        (if -a.1 > alpha then
          (recur1 a.2.1 (-alpha - 1) (-alpha) (-color) a.2.2.1 a.2.2.2.1 a.2.2.2.2
            new_hash).map fun r => (-r.1, r.2)
        else some (-a.1, a.2)).bind (pvsReSearch recur1 alpha beta color new_hash)
  else
    ((recur1 s₁ (-alpha - 1) (-alpha) (-color) tt killers history new_hash).map
      fun r => (-r.1, r.2)).bind (pvsReSearch recur1 alpha beta color new_hash)

/-- The `for i, move in enumerate(ordered)` loop of `_pvs`: apply, search
    the child, undo, track `best`/`best_move`, raise α, and on `α ≥ β`
    update the killer and history tables and break. -/
def pvsLoop (Z : Point → Player → Nat) (Zs : Nat) (recur1 recur2 : SearchFn)
    (depth : Nat) (beta color : Int) (tt_move : Option Point)
    (killer_set : List Point) (lmrTable : List (Point × Int)) (hash : Nat) :
    GameState → List Point → Nat → Int → Int → Option Point → TT → Killers → Hist →
    Option (Int × Option Point × GameState × TT × Killers × Hist)
  | s, [], _, _, best, best_move, tt, killers, history =>
      some (best, best_move, s, tt, killers, history)
  | s, move :: rest, i, alpha, best, best_move, tt, killers, history => do
      let s₁ ← apply_move s move
      let r ← pvsChild recur1 recur2 s₁ i alpha beta color tt killers history
        (hash ^^^ Z move s.current_player ^^^ Zs)
        (decide (4 ≤ i ∧ 3 ≤ depth ∧ some move ≠ tt_move ∧
          ¬(move ∈ killer_set) ∧ lmrLookup lmrTable move < 6000))
      let s₃ := (undo_move r.2.1).1
      let best' := if best < r.1 then r.1 else best
      let best_move' := if best < r.1 then some move else best_move
      let alpha' := max alpha r.1
      if beta ≤ alpha' then
        some (best', best_move', s₃, r.2.2.1, updateKillers r.2.2.2.1 depth move,
          histInsert r.2.2.2.2 move (histGet r.2.2.2.2 move + 2 ^ depth))
      else
        pvsLoop Z Zs recur1 recur2 depth beta color tt_move killer_set lmrTable hash
          s₃ rest (i + 1) alpha' best' best_move' r.2.2.1 r.2.2.2.1 r.2.2.2.2

/-- The candidate-list cap: when more than `n` ordered moves remain, keep
    the forcing moves (heuristic ≥ `FORCING_MOVE_HEURISTIC = 12_000`) plus
    the first `n`, de-duplicated in first-occurrence order
    (`list(dict.fromkeys(forcing_moves + capped))`). -/
def cappedOrder (s : GameState) (n : Nat) (l : List Point) : List Point :=
  if n < l.length then
    dedupFirst ((l.filter fun m => 12000 ≤ move_heuristic s m) ++ l.take n)
  else l

/-- The TT store at the end of `_pvs`: classify the result as an upper
    bound, lower bound or exact score relative to the original window and
    record it under the node's hash. -/
def pvsFinish (depth : Nat) (alpha beta : Int) (hash : Nat)
    (r : Option (Int × Option Point × GameState × TT × Killers × Hist)) :
    Option (Int × GameState × TT × Killers × Hist) :=
  match r with
  | none => none
  | some (best, best_move, s', tt', k', h') =>
    let flag : Int := if best ≤ alpha then -1 else if beta ≤ best then 1 else 0
    some (best, s', ttInsert tt' hash (depth, flag, best, best_move), k', h')

/-- The body of `_pvs` after the terminal / depth-0 / TT-cut early returns:
    candidate generation, killer validation, move ordering, the inner-node
    cap (`MAX_CANDIDATES_INNER = 20`, keeping forcing moves), the LMR
    heuristic table, the move loop, and the final TT store. -/
def pvsMain (Z : Point → Player → Nat) (Zs : Nat) (recur1 recur2 : SearchFn)
    (depth : Nat) (s : GameState) (alpha beta color : Int) (tt : TT)
    (killers : Killers) (history : Hist) (hash : Nat) (tt_move : Option Point) :
    Option (Int × GameState × TT × Killers × Hist) :=
  let candidates := generate_candidates s
  if candidates.isEmpty then some (color * evaluate s, s, tt, killers, history)
  else
    let depth_killers := killers.getD depth [none, none]
    let valid_killers := (depth_killers.filterMap id).filter fun k =>
      gridIsEmptyAt s.grid k
    let ordered := cappedOrder s 20
      (order_moves s candidates tt_move (valid_killers.map some) history)
    let lmrTable := if 3 ≤ depth ∧ 4 < ordered.length then
        (ordered.drop 4).map fun m => (m, move_heuristic s m)
      else []
    pvsFinish depth alpha beta hash
      (pvsLoop Z Zs recur1 recur2 depth beta color tt_move valid_killers lmrTable
        hash s ordered 0 alpha (-10000000) none tt killers history)

/-- `_pvs` at nonzero depth: the terminal early return, the transposition
    probe (exact / lower-bound / upper-bound cuts at sufficient stored
    depth; the stored best move seeds the ordering either way), then
    `pvsMain`. -/
def pvsBody (Z : Point → Player → Nat) (Zs : Nat) (recur1 recur2 : SearchFn)
    (depth : Nat) : SearchFn :=
  fun s alpha beta color tt killers history hash =>
  if s.is_over then some (color * evaluate s, s, tt, killers, history)
  else
    match ttLookup tt hash with
    | some (tt_depth, tt_flag, tt_score, tt_best) =>
      if depth ≤ tt_depth ∧ (tt_flag = 0 ∨ (tt_flag = 1 ∧ beta ≤ tt_score) ∨
          (tt_flag = -1 ∧ tt_score ≤ alpha)) then
        some (tt_score, s, tt, killers, history)
      else
        pvsMain Z Zs recur1 recur2 depth s alpha beta color tt killers history
          hash tt_best
    | none =>
      pvsMain Z Zs recur1 recur2 depth s alpha beta color tt killers history
        hash none

/-- `_pvs`: at depth 0 the terminal check then quiescence
    (`QUIESCENCE_DEPTH = 2`); at depth ≥ 1 the full body, recursing at
    `depth - 1` (and at `depth - 2` for LMR; at depth 1 that branch is dead
    code, since LMR requires `depth ≥ LMR_MIN_DEPTH = 3`). -/
def pvs (Z : Point → Player → Nat) (Zs : Nat) : Nat → SearchFn
  | 0 => fun s alpha beta color tt killers history _ =>
      if s.is_over then some (color * evaluate s, s, tt, killers, history)
      else (quiescence 2 s alpha beta color).map fun r => (r.1, r.2, tt, killers, history)
  | 1 => pvsBody Z Zs (pvs Z Zs 0) (pvs Z Zs 0) 1
  | d + 2 => pvsBody Z Zs (pvs Z Zs (d + 1)) (pvs Z Zs d) (d + 2)

/-- The per-move search of the `_root_search` loop: full window on the
    first move, otherwise a null window with a full-window re-search when
    `α < score < β`. -/
def rootChild (recurD : SearchFn) (s₁ : GameState) (i : Nat)
    (alpha beta color : Int) (tt : TT) (killers : Killers) (history : Hist)
    (new_hash : Nat) : Option (Int × GameState × TT × Killers × Hist) :=
  if i = 0 then
    (recurD s₁ (-beta) (-alpha) (-color) tt killers history new_hash).map
      fun r => (-r.1, r.2)
  else do
    let a ← recurD s₁ (-alpha - 1) (-alpha) (-color) tt killers history new_hash
    if alpha < -a.1 ∧ -a.1 < beta then
      (recurD a.2.1 (-beta) (-alpha) (-color) a.2.2.1 a.2.2.2.1 a.2.2.2.2
        new_hash).map fun r => (-r.1, r.2)
    else some (-a.1, a.2)

/-- The `for i, move in enumerate(ordered)` loop of `_root_search`. -/
def rootLoop (Z : Point → Player → Nat) (Zs : Nat) (recurD : SearchFn)
    (beta color : Int) (hash : Nat) :
    GameState → List Point → Nat → Int → Int → Option Point → TT → Killers → Hist →
    Option (Int × Option Point × GameState × TT × Killers × Hist)
  | s, [], _, _, best, best_move, tt, killers, history =>
      some (best, best_move, s, tt, killers, history)
  | s, move :: rest, i, alpha, best, best_move, tt, killers, history => do
      let s₁ ← apply_move s move
      let r ← rootChild recurD s₁ i alpha beta color tt killers history
        (hash ^^^ Z move s.current_player ^^^ Zs)
      let s₃ := (undo_move r.2.1).1
      let best' := if best < r.1 then r.1 else best
      let best_move' := if best < r.1 then some move else best_move
      let alpha' := max alpha r.1
      if beta ≤ alpha' then some (best', best_move', s₃, r.2.2)
      else
        rootLoop Z Zs recurD beta color hash s₃ rest (i + 1) alpha' best' best_move'
          r.2.2.1 r.2.2.2.1 r.2.2.2.2

/-- `_root_search`: probe the root TT entry for a best move, order the
    candidates, apply the root cap (`MAX_CANDIDATES_ROOT = 30`, keeping
    forcing moves), then run the loop with `_pvs` at `depth - 1`.  Returns
    `(best_score, best_move)` plus the threaded state and tables. -/
def root_search (Z : Point → Player → Nat) (Zs : Nat) (s : GameState)
    (candidates : List Point) (depth : Nat) (alpha beta color : Int) (tt : TT)
    (killers : Killers) (history : Hist) (zobrist_root : Nat) :
    Option (Int × Option Point × GameState × TT × Killers × Hist) :=
  let tt_move := (ttLookup tt zobrist_root).bind fun e => e.2.2.2
  let depth_killers := killers.getD depth [none, none]
  let ordered := cappedOrder s 30 (order_moves s candidates tt_move depth_killers history)
  rootLoop Z Zs (pvs Z Zs (depth - 1)) beta color zobrist_root
    s ordered 0 alpha (-10000000) ordered.head? tt killers history

/-- The win-in-1 fast path of `select_move`: apply each candidate, test
    whether the game just ended with the mover as winner, undo, and return
    the first winning move found. -/
def fastPath : GameState → List Point → Option (Option Point × GameState)
  | s, [] => some (none, s)
  | s, move :: rest => do
      let s₁ ← apply_move s move
      let won := s₁.is_over && s₁.winner == some s₁.current_player.other
      let s₂ := (undo_move s₁).1
      if won then some (some move, s₂) else fastPath s₂ rest

/-- `if move is not None: best_move = move`. -/
def bumpBest (r : Option Point) (best : Option Point) : Option Point :=
  match r with
  | some m => some m
  | none => best

/-- The iterative-deepening loop of `select_move`: full window at depths
    ≤ 2, an aspiration window `prev_score ± 500` at depths ≥ 3 with a
    full-window re-search on fail-low/high; the best move is replaced
    whenever the iteration reports one. -/
def idLoop (Z : Point → Player → Nat) (Zs : Nat) (candidates : List Point)
    (color : Int) (zobrist_root : Nat) :
    GameState → List Nat → TT → Killers → Hist → Int → Option Point →
    Option (Option Point × GameState)
  | s, [], _, _, _, _, best => some (best, s)
  | s, cd :: rest, tt, killers, history, prev, best => do
      let r ←
        if cd ≤ 2 then
          root_search Z Zs s candidates cd (-10000000) 10000000 color tt killers
            history zobrist_root
        else do
          let r₁ ← root_search Z Zs s candidates cd (prev - 500) (prev + 500) color
            tt killers history zobrist_root
          if r₁.1 ≤ prev - 500 ∨ prev + 500 ≤ r₁.1 then
            root_search Z Zs r₁.2.2.1 candidates cd (-10000000) 10000000 color
              r₁.2.2.2.1 r₁.2.2.2.2.1 r₁.2.2.2.2.2 zobrist_root
          else some r₁
      idLoop Z Zs candidates color zobrist_root r.2.2.1 rest r.2.2.2.1 r.2.2.2.2.1
        r.2.2.2.2.2 r.1 (bumpBest r.2.1 best)

/-- `AdvancedAgent.select_move`: candidate generation, the win-in-1 fast
    path, the root candidate cap, then iterative deepening at depths
    `1 .. depth`.  The final `assert best_move is not None` propagates as
    `none`; the returned state witnesses that the position is handed back
    unchanged. -/
def select_move (Z : Point → Player → Nat) (Zs : Nat) (depth : Nat)
    (s : GameState) : Option (Point × GameState) := do
  let color : Int := if s.current_player = Player.black then 1 else -1
  let candidates := generate_candidates s
  let fp ← fastPath s candidates
  match fp.1 with
  | some m => some (m, fp.2)
  | none =>
    let s₀ := fp.2
    let candidates' := if 30 < candidates.length then
        let initial_order := order_moves s₀ candidates none [none, none] []
        dedupFirst ((initial_order.filter fun m => 12000 ≤ move_heuristic s₀ m) ++
          initial_order.take 30)
      else candidates
    let killers : Killers := List.replicate (depth + 2) [none, none]
    let r ← idLoop Z Zs candidates' color (compute_hash Z Zs s₀) s₀
      (List.range' 1 depth) [] killers [] 0 candidates'.head?
    match r.1 with
    | some m => some (m, r.2)
    | none => none

/-! ## Purity of the search: every internal apply is paired with an undo,
and no assertion fires, so each search function hands the position back
exactly as it received it. -/

/-- A search function is pure when, on any well-formed position, it
    succeeds and returns that position unchanged. -/
def PureFn (f : SearchFn) : Prop :=
  ∀ (s : GameState) (alpha beta color : Int) (tt : TT) (killers : Killers)
    (history : Hist) (hash : Nat), WF s →
    ∃ v tt' k' h', f s alpha beta color tt killers history hash = some (v, s, tt', k', h')

/-- Members of a capped candidate list come from the original list. -/
theorem capKeep_mem (p : Point → Bool) (l : List Point) (n : Nat) (x : Point)
    (hx : x ∈ dedupFirst (l.filter p ++ l.take n)) : x ∈ l := by
  rw [mem_dedupFirst] at hx
  rcases List.mem_append.mp hx with h | h
  · exact (List.mem_filter.mp h).1
  · exact List.take_subset n l h

theorem pvsReSearch_pure (recur1 : SearchFn) (h1 : PureFn recur1)
    (s₁ : GameState) (alpha beta color : Int) (nh : Nat) (hwf : WF s₁)
    (v : Int) (t : TT) (k : Killers) (hh : Hist) :
    ∃ v' tt' k' h', pvsReSearch recur1 alpha beta color nh (v, s₁, t, k, hh) =
      some (v', s₁, tt', k', h') := by
  unfold pvsReSearch
  by_cases hre : alpha < v ∧ v < beta
  · rw [if_pos hre]
    obtain ⟨w, t2, k2, hh2, hw⟩ := h1 s₁ (-beta) (-alpha) (-color) t k hh nh hwf
    show ∃ v' tt' k' h',
        (recur1 s₁ (-beta) (-alpha) (-color) t k hh nh).map (fun r => (-r.1, r.2)) =
          some (v', s₁, tt', k', h')
    rw [hw]
    exact ⟨-w, t2, k2, hh2, rfl⟩
  · rw [if_neg hre]
    exact ⟨v, t, k, hh, rfl⟩

theorem pvsChild_pure (recur1 recur2 : SearchFn) (h1 : PureFn recur1)
    (h2 : PureFn recur2) (s₁ : GameState) (i : Nat) (alpha beta color : Int)
    (tt : TT) (killers : Killers) (history : Hist) (nh : Nat) (lmr : Bool)
    (hwf : WF s₁) :
    ∃ v tt' k' h', pvsChild recur1 recur2 s₁ i alpha beta color tt killers history
      nh lmr = some (v, s₁, tt', k', h') := by
  unfold pvsChild
  by_cases hi : i = 0
  · rw [if_pos hi]
    obtain ⟨v, t1, k1, hh1, hv⟩ := h1 s₁ (-beta) (-alpha) (-color) tt killers history nh hwf
    rw [hv]
    exact ⟨-v, t1, k1, hh1, rfl⟩
  · rw [if_neg hi]
    cases lmr with
    | false =>
      rw [if_neg (by simp)]
      obtain ⟨v, t1, k1, hh1, hv⟩ :=
        h1 s₁ (-alpha - 1) (-alpha) (-color) tt killers history nh hwf
      rw [hv]
      exact pvsReSearch_pure recur1 h1 s₁ alpha beta color nh hwf (-v) t1 k1 hh1
    | true =>
      rw [if_pos rfl]
      obtain ⟨u, t1, k1, hh1, hu⟩ :=
        h2 s₁ (-alpha - 1) (-alpha) (-color) tt killers history nh hwf
      rw [hu]
      show ∃ v' tt' k' h',
          ((if -u > alpha then
            (recur1 s₁ (-alpha - 1) (-alpha) (-color) t1 k1 hh1 nh).map
              fun r => (-r.1, r.2)
          else some (-u, s₁, t1, k1, hh1)).bind
            (pvsReSearch recur1 alpha beta color nh)) = some (v', s₁, tt', k', h')
      by_cases hlm : -u > alpha
      · rw [if_pos hlm]
        obtain ⟨w, t2, k2, hh2, hw⟩ :=
          h1 s₁ (-alpha - 1) (-alpha) (-color) t1 k1 hh1 nh hwf
        rw [hw]
        exact pvsReSearch_pure recur1 h1 s₁ alpha beta color nh hwf (-w) t2 k2 hh2
      · rw [if_neg hlm]
        exact pvsReSearch_pure recur1 h1 s₁ alpha beta color nh hwf (-u) t1 k1 hh1

theorem pvsLoop_pure (Z : Point → Player → Nat) (Zs : Nat)
    (recur1 recur2 : SearchFn) (h1 : PureFn recur1) (h2 : PureFn recur2)
    (depth : Nat) (beta color : Int) (tt_move : Option Point)
    (killer_set : List Point) (lmrTable : List (Point × Int)) (hash : Nat) :
    ∀ (l : List Point) (s : GameState) (i : Nat) (alpha best : Int)
      (bm : Option Point) (tt : TT) (killers : Killers) (history : Hist),
      WF s → s.is_over = false → (∀ m ∈ l, LegalPt s.grid m) →
      ∃ B M T K H, pvsLoop Z Zs recur1 recur2 depth beta color tt_move killer_set
        lmrTable hash s l i alpha best bm tt killers history = some (B, M, s, T, K, H) := by
  intro l
  induction l with
  | nil =>
    intro s i α best bm tt killers history _ _ _
    exact ⟨best, bm, tt, killers, history, rfl⟩
  | cons mv rest ih =>
    intro s i α best bm tt killers history hwf hov hleg
    have hlm := hleg mv (List.mem_cons_self _ _)
    obtain ⟨s₁, hs₁⟩ := apply_move_total s mv hov hlm.1 hlm.2
    have hwf₁ := WF_apply s mv s₁ hwf hs₁
    obtain ⟨v, t1, k1, hh1, hv⟩ := pvsChild_pure recur1 recur2 h1 h2 s₁ i α beta
      color tt killers history (hash ^^^ Z mv s.current_player ^^^ Zs)
      (decide (4 ≤ i ∧ 3 ≤ depth ∧ some mv ≠ tt_move ∧
        ¬(mv ∈ killer_set) ∧ lmrLookup lmrTable mv < 6000)) hwf₁
    have hundo : undo_move s₁ = (s, some ⟨mv, s.current_player⟩) :=
      undo_after_apply s s₁ mv hwf hs₁
    unfold pvsLoop
    rw [hs₁]
    show ∃ B M T K H, (do
        let r ← pvsChild recur1 recur2 s₁ i α beta color tt killers history
          (hash ^^^ Z mv s.current_player ^^^ Zs)
          (decide (4 ≤ i ∧ 3 ≤ depth ∧ some mv ≠ tt_move ∧
            ¬(mv ∈ killer_set) ∧ lmrLookup lmrTable mv < 6000))
        let s₃ := (undo_move r.2.1).1
        let best' := if best < r.1 then r.1 else best
        let best_move' := if best < r.1 then some mv else bm
        let alpha' := max α r.1
        if beta ≤ alpha' then
          some (best', best_move', s₃, r.2.2.1, updateKillers r.2.2.2.1 depth mv,
            histInsert r.2.2.2.2 mv (histGet r.2.2.2.2 mv + 2 ^ depth))
        else
          pvsLoop Z Zs recur1 recur2 depth beta color tt_move killer_set lmrTable hash
            s₃ rest (i + 1) alpha' best' best_move' r.2.2.1 r.2.2.2.1 r.2.2.2.2) =
      some (B, M, s, T, K, H)
    rw [hv]
    show ∃ B M T K H,
        (if beta ≤ max α v then
          some ((if best < v then v else best), (if best < v then some mv else bm),
            (undo_move s₁).1, t1, updateKillers k1 depth mv,
            histInsert hh1 mv (histGet hh1 mv + 2 ^ depth))
        else
          pvsLoop Z Zs recur1 recur2 depth beta color tt_move killer_set lmrTable hash
            (undo_move s₁).1 rest (i + 1) (max α v) (if best < v then v else best)
            (if best < v then some mv else bm) t1 k1 hh1) = some (B, M, s, T, K, H)
    have h₃ : (undo_move s₁).1 = s := by rw [hundo]
    rw [h₃]
    by_cases hcut : beta ≤ max α v
    · rw [if_pos hcut]
      exact ⟨_, _, _, _, _, rfl⟩
    · rw [if_neg hcut]
      exact ih s (i + 1) (max α v) _ _ t1 k1 hh1 hwf hov
        (fun m hm => hleg m (List.mem_cons_of_mem _ hm))

theorem cappedOrder_mem (s : GameState) (n : Nat) (l : List Point) (x : Point)
    (hx : x ∈ cappedOrder s n l) : x ∈ l := by
  unfold cappedOrder at hx
  split at hx
  · exact capKeep_mem _ l n x hx
  · exact hx

/-- The move loop followed by the TT store is pure. -/
theorem pvsFinish_pure (Z : Point → Player → Nat) (Zs : Nat)
    (recur1 recur2 : SearchFn) (h1 : PureFn recur1) (h2 : PureFn recur2)
    (depth : Nat) (s : GameState) (alpha beta color : Int) (tt : TT)
    (killers : Killers) (history : Hist) (hash : Nat) (tm : Option Point)
    (ks : List Point) (lt : List (Point × Int)) (ord : List Point)
    (hwf : WF s) (hov : s.is_over = false) (hleg : ∀ m ∈ ord, LegalPt s.grid m) :
    ∃ v tt' k' h',
      pvsFinish depth alpha beta hash
        (pvsLoop Z Zs recur1 recur2 depth beta color tm ks lt hash s ord 0 alpha
          (-10000000) none tt killers history) = some (v, s, tt', k', h') := by
  obtain ⟨B, M, T, K, H, hloop⟩ := pvsLoop_pure Z Zs recur1 recur2 h1 h2 depth beta
    color tm ks lt hash ord s 0 alpha (-10000000) none tt killers history hwf hov hleg
  rw [hloop]
  exact ⟨_, _, _, _, rfl⟩

theorem pvsMain_pure (Z : Point → Player → Nat) (Zs : Nat)
    (recur1 recur2 : SearchFn) (h1 : PureFn recur1) (h2 : PureFn recur2)
    (depth : Nat) (s : GameState) (alpha beta color : Int) (tt : TT)
    (killers : Killers) (history : Hist) (hash : Nat) (tt_move : Option Point)
    (hwf : WF s) (hov : s.is_over = false) :
    ∃ v tt' k' h', pvsMain Z Zs recur1 recur2 depth s alpha beta color tt killers
      history hash tt_move = some (v, s, tt', k', h') := by
  simp only [pvsMain]
  by_cases hc : (generate_candidates s).isEmpty = true
  · rw [if_pos hc]
    exact ⟨_, _, _, _, rfl⟩
  · rw [if_neg hc]
    refine pvsFinish_pure Z Zs recur1 recur2 h1 h2 depth s alpha beta color tt
      killers history hash _ _ _ _ hwf hov ?_
    intro m hm
    exact candidates_legal s hwf m (order_moves_mem s _ _ _ _ m (cappedOrder_mem s 20 _ m hm))

theorem pvsBody_pure (Z : Point → Player → Nat) (Zs : Nat)
    (recur1 recur2 : SearchFn) (h1 : PureFn recur1) (h2 : PureFn recur2)
    (depth : Nat) : PureFn (pvsBody Z Zs recur1 recur2 depth) := by
  intro s α β c tt k h hs hwf
  unfold pvsBody
  by_cases hov : s.is_over = true
  · rw [if_pos hov]
    exact ⟨_, _, _, _, rfl⟩
  · rw [if_neg hov]
    have hov' : s.is_over = false := by
      cases hx : s.is_over
      · rfl
      · exact absurd hx hov
    cases hTT : ttLookup tt hs with
    | none => exact pvsMain_pure Z Zs recur1 recur2 h1 h2 depth s α β c tt k h hs none hwf hov'
    | some e =>
      obtain ⟨td, tf, tsc, tb⟩ := e
      show ∃ v tt' k' h',
          (if depth ≤ td ∧ (tf = 0 ∨ (tf = 1 ∧ β ≤ tsc) ∨ (tf = -1 ∧ tsc ≤ α)) then
            some (tsc, s, tt, k, h)
          else pvsMain Z Zs recur1 recur2 depth s α β c tt k h hs tb) =
            some (v, s, tt', k', h')
      by_cases hcut : depth ≤ td ∧ (tf = 0 ∨ (tf = 1 ∧ β ≤ tsc) ∨ (tf = -1 ∧ tsc ≤ α))
      · rw [if_pos hcut]
        exact ⟨_, _, _, _, rfl⟩
      · rw [if_neg hcut]
        exact pvsMain_pure Z Zs recur1 recur2 h1 h2 depth s α β c tt k h hs tb hwf hov'

theorem pvs_zero_pure (Z : Point → Player → Nat) (Zs : Nat) : PureFn (pvs Z Zs 0) := by
  intro s α β c tt k h hs hwf
  show ∃ v tt' k' h',
      (if s.is_over then some (c * evaluate s, s, tt, k, h)
      else (quiescence 2 s α β c).map fun r => (r.1, r.2, tt, k, h)) =
        some (v, s, tt', k', h')
  by_cases hov : s.is_over = true
  · rw [if_pos hov]
    exact ⟨_, _, _, _, rfl⟩
  · rw [if_neg hov]
    obtain ⟨v, hq⟩ := quiescence_pure 2 s α β c hwf
    rw [hq]
    exact ⟨v, tt, k, h, rfl⟩

/-- `_pvs` is pure at every depth: it always succeeds on a well-formed
    position and returns the position unchanged. -/
theorem pvs_pure (Z : Point → Player → Nat) (Zs : Nat) :
    ∀ d : Nat, PureFn (pvs Z Zs d) := by
  have main : ∀ d : Nat, PureFn (pvs Z Zs d) ∧ PureFn (pvs Z Zs (d + 1)) := by
    intro d
    induction d with
    | zero =>
      refine ⟨pvs_zero_pure Z Zs, ?_⟩
      have e : pvs Z Zs 1 = pvsBody Z Zs (pvs Z Zs 0) (pvs Z Zs 0) 1 := rfl
      rw [e]
      exact pvsBody_pure Z Zs _ _ (pvs_zero_pure Z Zs) (pvs_zero_pure Z Zs) 1
    | succ d ih =>
      refine ⟨ih.2, ?_⟩
      have e : pvs Z Zs (d + 1 + 1) =
          pvsBody Z Zs (pvs Z Zs (d + 1)) (pvs Z Zs d) (d + 2) := rfl
      rw [e]
      exact pvsBody_pure Z Zs _ _ ih.2 ih.1 (d + 2)
  exact fun d => (main d).1

theorem rootChild_pure (recurD : SearchFn) (hD : PureFn recurD) (s₁ : GameState)
    (i : Nat) (alpha beta color : Int) (tt : TT) (killers : Killers)
    (history : Hist) (nh : Nat) (hwf : WF s₁) :
    ∃ v tt' k' h', rootChild recurD s₁ i alpha beta color tt killers history nh =
      some (v, s₁, tt', k', h') := by
  unfold rootChild
  by_cases hi : i = 0
  · rw [if_pos hi]
    obtain ⟨v, t1, k1, hh1, hv⟩ := hD s₁ (-beta) (-alpha) (-color) tt killers history nh hwf
    rw [hv]
    exact ⟨-v, t1, k1, hh1, rfl⟩
  · rw [if_neg hi]
    obtain ⟨u, t1, k1, hh1, hu⟩ :=
      hD s₁ (-alpha - 1) (-alpha) (-color) tt killers history nh hwf
    rw [hu]
    show ∃ v' tt' k' h',
        (if alpha < -u ∧ -u < beta then
          (recurD s₁ (-beta) (-alpha) (-color) t1 k1 hh1 nh).map fun r => (-r.1, r.2)
        else some (-u, s₁, t1, k1, hh1)) = some (v', s₁, tt', k', h')
    by_cases hre : alpha < -u ∧ -u < beta
    · rw [if_pos hre]
      obtain ⟨w, t2, k2, hh2, hw⟩ := hD s₁ (-beta) (-alpha) (-color) t1 k1 hh1 nh hwf
      rw [hw]
      exact ⟨-w, t2, k2, hh2, rfl⟩
    · rw [if_neg hre]
      exact ⟨-u, t1, k1, hh1, rfl⟩

theorem rootLoop_pure (Z : Point → Player → Nat) (Zs : Nat) (recurD : SearchFn)
    (hD : PureFn recurD) (beta color : Int) (hash : Nat) (P : Point → Prop) :
    ∀ (l : List Point) (s : GameState) (i : Nat) (alpha best : Int)
      (bm : Option Point) (tt : TT) (killers : Killers) (history : Hist),
      WF s → s.is_over = false → (∀ m ∈ l, LegalPt s.grid m) →
      (∀ m ∈ l, P m) → (∀ m, bm = some m → P m) →
      ∃ B M T K H, rootLoop Z Zs recurD beta color hash s l i alpha best bm tt
        killers history = some (B, M, s, T, K, H) ∧ (∀ m, M = some m → P m) := by
  intro l
  induction l with
  | nil =>
    intro s i α best bm tt killers history _ _ _ _ hbm
    exact ⟨best, bm, tt, killers, history, rfl, hbm⟩
  | cons mv rest ih =>
    intro s i α best bm tt killers history hwf hov hleg hP hbm
    have hlm := hleg mv (List.mem_cons_self _ _)
    obtain ⟨s₁, hs₁⟩ := apply_move_total s mv hov hlm.1 hlm.2
    have hwf₁ := WF_apply s mv s₁ hwf hs₁
    obtain ⟨v, t1, k1, hh1, hv⟩ := rootChild_pure recurD hD s₁ i α beta color tt
      killers history (hash ^^^ Z mv s.current_player ^^^ Zs) hwf₁
    have hundo : undo_move s₁ = (s, some ⟨mv, s.current_player⟩) :=
      undo_after_apply s s₁ mv hwf hs₁
    unfold rootLoop
    rw [hs₁]
    show ∃ B M T K H, (do
        let r ← rootChild recurD s₁ i α beta color tt killers history
          (hash ^^^ Z mv s.current_player ^^^ Zs)
        let s₃ := (undo_move r.2.1).1
        let best' := if best < r.1 then r.1 else best
        let best_move' := if best < r.1 then some mv else bm
        let alpha' := max α r.1
        if beta ≤ alpha' then some (best', best_move', s₃, r.2.2)
        else
          rootLoop Z Zs recurD beta color hash s₃ rest (i + 1) alpha' best'
            best_move' r.2.2.1 r.2.2.2.1 r.2.2.2.2) = some (B, M, s, T, K, H) ∧
        (∀ m, M = some m → P m)
    rw [hv]
    show ∃ B M T K H,
        (if beta ≤ max α v then
          some ((if best < v then v else best), (if best < v then some mv else bm),
            (undo_move s₁).1, t1, k1, hh1)
        else
          rootLoop Z Zs recurD beta color hash (undo_move s₁).1 rest (i + 1)
            (max α v) (if best < v then v else best) (if best < v then some mv else bm)
            t1 k1 hh1) = some (B, M, s, T, K, H) ∧ (∀ m, M = some m → P m)
    have h₃ : (undo_move s₁).1 = s := by rw [hundo]
    rw [h₃]
    have hbm' : ∀ m, (if best < v then some mv else bm) = some m → P m := by
      intro m hm
      by_cases hb : best < v
      · rw [if_pos hb] at hm
        injection hm with hm'
        rw [← hm']
        exact hP mv (List.mem_cons_self _ _)
      · rw [if_neg hb] at hm
        exact hbm m hm
    by_cases hcut : beta ≤ max α v
    · rw [if_pos hcut]
      exact ⟨_, _, t1, k1, hh1, rfl, hbm'⟩
    · rw [if_neg hcut]
      exact ih s (i + 1) (max α v) _ _ t1 k1 hh1 hwf hov
        (fun m hm => hleg m (List.mem_cons_of_mem _ hm))
        (fun m hm => hP m (List.mem_cons_of_mem _ hm)) hbm'

/-- `_root_search` is pure and returns a best move drawn from the given
    candidate list (when it returns one at all). -/
theorem root_search_pure (Z : Point → Player → Nat) (Zs : Nat) (s : GameState)
    (candidates : List Point) (depth : Nat) (alpha beta color : Int) (tt : TT)
    (killers : Killers) (history : Hist) (zr : Nat) (hwf : WF s)
    (hov : s.is_over = false) (hleg : ∀ m ∈ candidates, LegalPt s.grid m) :
    ∃ B M T K H, root_search Z Zs s candidates depth alpha beta color tt killers
      history zr = some (B, M, s, T, K, H) ∧ (∀ m, M = some m → m ∈ candidates) := by
  simp only [root_search]
  refine rootLoop_pure Z Zs (pvs Z Zs (depth - 1)) (pvs_pure Z Zs (depth - 1))
    beta color zr _ _ s 0 alpha (-10000000) _ tt killers history hwf hov ?_ ?_ ?_
  · intro m hm
    exact hleg m (order_moves_mem s _ _ _ _ m (cappedOrder_mem s 30 _ m hm))
  · intro m hm
    exact order_moves_mem s _ _ _ _ m (cappedOrder_mem s 30 _ m hm)
  · intro m hm
    have hmem := List.mem_of_mem_head? (hm ▸ rfl :
      m ∈ (cappedOrder s 30 (order_moves s candidates
        ((ttLookup tt zr).bind fun e => e.2.2.2) (killers.getD depth [none, none])
        history)).head?)
    exact order_moves_mem s _ _ _ _ m (cappedOrder_mem s 30 _ m hmem)

/-- The win-in-1 fast path restores the position, never hits an assertion,
    and only ever returns one of the candidates it scanned. -/
theorem fastPath_pure :
    ∀ (l : List Point) (s : GameState), WF s → s.is_over = false →
      (∀ m ∈ l, LegalPt s.grid m) →
      ∃ r, fastPath s l = some (r, s) ∧ (∀ m, r = some m → m ∈ l) := by
  intro l
  induction l with
  | nil =>
    intro s _ _ _
    exact ⟨none, rfl, fun m hm => by cases hm⟩
  | cons mv rest ih =>
    intro s hwf hov hleg
    have hlm := hleg mv (List.mem_cons_self _ _)
    obtain ⟨s₁, hs₁⟩ := apply_move_total s mv hov hlm.1 hlm.2
    have hwf₁ := WF_apply s mv s₁ hwf hs₁
    have hundo : undo_move s₁ = (s, some ⟨mv, s.current_player⟩) :=
      undo_after_apply s s₁ mv hwf hs₁
    unfold fastPath
    rw [hs₁]
    show ∃ r, (if s₁.is_over && s₁.winner == some s₁.current_player.other then
          some (some mv, (undo_move s₁).1)
        else fastPath (undo_move s₁).1 rest) = some (r, s) ∧
      (∀ m, r = some m → m ∈ mv :: rest)
    have h₃ : (undo_move s₁).1 = s := by rw [hundo]
    rw [h₃]
    by_cases hwon : (s₁.is_over && s₁.winner == some s₁.current_player.other) = true
    · rw [if_pos hwon]
      refine ⟨some mv, rfl, ?_⟩
      intro m hm
      injection hm with hm'
      rw [← hm']
      exact List.mem_cons_self _ _
    · rw [if_neg hwon]
      obtain ⟨r, hr, hmem⟩ := ih s hwf hov (fun m hm => hleg m (List.mem_cons_of_mem _ hm))
      exact ⟨r, hr, fun m hm => List.mem_cons_of_mem _ (hmem m hm)⟩

/-- The iterative-deepening loop restores the position, never fails, and
    only ever improves the best move to another candidate; a present best
    move never degrades to `none`. -/
theorem idLoop_pure (Z : Point → Player → Nat) (Zs : Nat) (candidates : List Point)
    (color : Int) (zr : Nat) (s : GameState) (hwf : WF s) (hov : s.is_over = false)
    (hleg : ∀ m ∈ candidates, LegalPt s.grid m) :
    ∀ (ds : List Nat) (tt : TT) (killers : Killers) (history : Hist) (prev : Int)
      (best : Option Point),
      (∀ m, best = some m → m ∈ candidates) →
      ∃ M, idLoop Z Zs candidates color zr s ds tt killers history prev best =
        some (M, s) ∧ (∀ m, M = some m → m ∈ candidates) ∧
        (best.isSome = true → M.isSome = true) := by
  intro ds
  induction ds with
  | nil =>
    intro tt killers history prev best hbm
    exact ⟨best, rfl, hbm, fun h => h⟩
  | cons cd rest ih =>
    intro tt killers history prev best hbm
    have hnext : ∀ (M₁ : Option Point), (∀ m, M₁ = some m → m ∈ candidates) →
        ∀ m, bumpBest M₁ best = some m → m ∈ candidates := by
      intro M₁ hM₁ m hm
      cases M₁ with
      | some m₁ => exact hM₁ m hm
      | none => exact hbm m hm
    have hsome : ∀ (M₁ : Option Point), best.isSome = true →
        (bumpBest M₁ best).isSome = true := by
      intro M₁ hb
      cases M₁ with
      | some m₁ => rfl
      | none => exact hb
    unfold idLoop
    by_cases hcd : cd ≤ 2
    · rw [if_pos hcd]
      obtain ⟨B, M₁, T, K, H, heq, hM₁⟩ := root_search_pure Z Zs s candidates cd
        (-10000000) 10000000 color tt killers history zr hwf hov hleg
      rw [heq]
      obtain ⟨M, hid, hmem, hs⟩ := ih T K H B (bumpBest M₁ best) (hnext M₁ hM₁)
      exact ⟨M, hid, hmem, fun hb => hs (hsome M₁ hb)⟩
    · rw [if_neg hcd]
      obtain ⟨B₁, M₁, T₁, K₁, H₁, heq₁, hM₁⟩ := root_search_pure Z Zs s candidates cd
        (prev - 500) (prev + 500) color tt killers history zr hwf hov hleg
      rw [heq₁]
      show ∃ M, (if B₁ ≤ prev - 500 ∨ prev + 500 ≤ B₁ then
            (root_search Z Zs s candidates cd (-10000000) 10000000 color T₁ K₁ H₁
              zr).bind fun r =>
              idLoop Z Zs candidates color zr r.2.2.1 rest r.2.2.2.1 r.2.2.2.2.1
                r.2.2.2.2.2 r.1 (bumpBest r.2.1 best)
          else idLoop Z Zs candidates color zr s rest T₁ K₁ H₁ B₁ (bumpBest M₁ best))
          = some (M, s) ∧
        (∀ m, M = some m → m ∈ candidates) ∧ (best.isSome = true → M.isSome = true)
      by_cases hasp : B₁ ≤ prev - 500 ∨ prev + 500 ≤ B₁
      · rw [if_pos hasp]
        obtain ⟨B₂, M₂, T₂, K₂, H₂, heq₂, hM₂⟩ := root_search_pure Z Zs s candidates
          cd (-10000000) 10000000 color T₁ K₁ H₁ zr hwf hov hleg
        rw [heq₂]
        obtain ⟨M, hid, hmem, hs⟩ := ih T₂ K₂ H₂ B₂ (bumpBest M₂ best) (hnext M₂ hM₂)
        exact ⟨M, hid, hmem, fun hb => hs (hsome M₂ hb)⟩
      · rw [if_neg hasp]
        obtain ⟨M, hid, hmem, hs⟩ := ih T₁ K₁ H₁ B₁ (bumpBest M₁ best) (hnext M₁ hM₁)
        exact ⟨M, hid, hmem, fun hb => hs (hsome M₁ hb)⟩

/-! ## Candidate sets are nonempty on non-terminal positions with an empty
square: some stone has an empty on-grid neighbour, which the
Chebyshev-distance-1 scan collects. -/

theorem isOnGrid_iff (p : Point) : isOnGrid p = true ↔
    1 ≤ p.row ∧ p.row ≤ 15 ∧ 1 ≤ p.col ∧ p.col ≤ 15 := by
  simp [isOnGrid, BOARD_SIZE, and_assoc]

/-- Every off-axis offset with both coordinates in `[-2, 2]` appears in the
    neighbor-offset list. -/
theorem offset_mem_neighborOffsets (o : Int × Int) (h1 : o.1.natAbs ≤ 2)
    (h2 : o.2.natAbs ≤ 2) (h0 : ¬(o.1 = 0 ∧ o.2 = 0)) : o ∈ neighborOffsets := by
  obtain ⟨x, y⟩ := o
  simp only at h1 h2 h0
  have hx1 : -2 ≤ x := by omega
  have hx2 : x ≤ 2 := by omega
  have hy1 : -2 ≤ y := by omega
  have hy2 : y ≤ 2 := by omega
  interval_cases x <;> interval_cases y <;>
    first
      | decide
      | exact absurd ⟨rfl, rfl⟩ h0

/-- The unit step of the walk from one coordinate toward another. -/
def stepDir (a b : Int) : Int := if a < b then 1 else if b < a then -1 else 0

/-- One king-move step from `p` toward `e`. -/
def stepToward (p e : Point) : Point :=
  ⟨p.row + stepDir p.row e.row, p.col + stepDir p.col e.col⟩

theorem stepDir_spec (a b : Int) :
    (stepDir a b).natAbs ≤ 1 ∧
    ((a ≤ a + stepDir a b ∧ a + stepDir a b ≤ b) ∨
      (b ≤ a + stepDir a b ∧ a + stepDir a b ≤ a)) ∧
    (b - (a + stepDir a b)).natAbs ≤ (b - a).natAbs ∧
    (a ≠ b → (b - (a + stepDir a b)).natAbs + 1 ≤ (b - a).natAbs) := by
  unfold stepDir
  split_ifs <;> omega

/-- Walking from an occupied square toward an empty square, some adjacent
    occupied/empty pair appears (both on the grid). -/
theorem empty_near_stone (g : Grid) :
    ∀ (n : Nat) (p e : Point),
      (e.row - p.row).natAbs + (e.col - p.col).natAbs ≤ n →
      isOnGrid p = true → isOnGrid e = true →
      lookupGrid g p ≠ none → lookupGrid g e = none →
      ∃ a b : Point, isOnGrid a = true ∧ isOnGrid b = true ∧
        lookupGrid g a ≠ none ∧ lookupGrid g b = none ∧
        (b.row - a.row).natAbs ≤ 1 ∧ (b.col - a.col).natAbs ≤ 1 := by
  intro n
  induction n with
  | zero =>
    intro p e hd hop hoe hp he
    have hpe : p = e := pointExt p e (by omega) (by omega)
    rw [hpe] at hp
    exact absurd he hp
  | succ n ih =>
    intro p e hd hop hoe hp he
    by_cases hpe : p = e
    · rw [hpe] at hp
      exact absurd he hp
    · have hne : ¬(p.row = e.row ∧ p.col = e.col) :=
        fun h => hpe (pointExt p e h.1 h.2)
      obtain ⟨hr1, hr2, hr4, hr3⟩ := stepDir_spec p.row e.row
      obtain ⟨hc1, hc2, hc4, hc3⟩ := stepDir_spec p.col e.col
      rw [isOnGrid_iff] at hop hoe
      have hoq : isOnGrid (stepToward p e) = true := by
        rw [isOnGrid_iff]
        show 1 ≤ p.row + stepDir p.row e.row ∧ p.row + stepDir p.row e.row ≤ 15 ∧
          1 ≤ p.col + stepDir p.col e.col ∧ p.col + stepDir p.col e.col ≤ 15
        omega
      by_cases hq : lookupGrid g (stepToward p e) = none
      · refine ⟨p, stepToward p e, ?_, hoq, hp, hq, ?_, ?_⟩
        · rw [isOnGrid_iff]
          exact hop
        · show (p.row + stepDir p.row e.row - p.row).natAbs ≤ 1
          omega
        · show (p.col + stepDir p.col e.col - p.col).natAbs ≤ 1
          omega
      · have hne' : p.row ≠ e.row ∨ p.col ≠ e.col := by
          by_contra hcon
          push_neg at hcon
          exact hne ⟨hcon.1, hcon.2⟩
        have hd' : (e.row - (stepToward p e).row).natAbs +
            (e.col - (stepToward p e).col).natAbs ≤ n := by
          show (e.row - (p.row + stepDir p.row e.row)).natAbs +
            (e.col - (p.col + stepDir p.col e.col)).natAbs ≤ n
          rcases hne' with hdiff | hdiff
          · have := hr3 hdiff
            omega
          · have := hc3 hdiff
            omega
        exact ih (stepToward p e) e hd' hoq (by rw [isOnGrid_iff]; exact hoe) hq he

/-- On a position with at least one stone and at least one empty on-grid
    square, the distance-1 neighbor set is nonempty. -/
theorem dist1_nonempty (s : GameState) (hwf : WF s) (hmv : s.moves ≠ [])
    (e : Point) (hoe : isOnGrid e = true) (hee : gridIsEmptyAt s.grid e = true) :
    ∃ x, x ∈ (distSets s.grid (s.moves.map fun m => m.point)).1 := by
  obtain ⟨m₀, hm₀⟩ : ∃ m, m ∈ s.moves := by
    cases hM : s.moves with
    | nil => exact absurd hM hmv
    | cons a l => exact ⟨a, hM ▸ List.mem_cons_self a l⟩
  obtain ⟨hg, hnd, hon, hw⟩ := hwf
  have hp0 : lookupGrid s.grid m₀.point ≠ none := by
    intro hcon
    rw [hg, lookupGrid_moves_eq_none_iff] at hcon
    exact hcon m₀ hm₀ rfl
  have hee' : lookupGrid s.grid e = none := by
    unfold gridIsEmptyAt at hee
    exact Option.isNone_iff_eq_none.mp hee
  obtain ⟨a, b, hoa, hob, ha, hb, hr, hc⟩ := empty_near_stone s.grid
    ((e.row - m₀.point.row).natAbs + (e.col - m₀.point.col).natAbs) m₀.point e
    le_rfl (hon m₀ hm₀) hoe hp0 hee'
  obtain ⟨pl, hpl⟩ : ∃ pl, lookupGrid s.grid a = some pl := by
    cases hla : lookupGrid s.grid a with
    | none => exact absurd hla ha
    | some pl => exact ⟨pl, rfl⟩
  have hmem := lookup_some_mem_occ s a pl ⟨hg, hnd, hon, hw⟩ hpl
  refine ⟨b, ?_⟩
  unfold distSets
  refine dist1_adds s.grid _ ([], []) a b (b.row - a.row, b.col - a.col) hmem
    ?_ ?_ hob ?_ ?_
  · refine offset_mem_neighborOffsets _ ?_ ?_ ?_
    · show (b.row - a.row).natAbs ≤ 2
      omega
    · show (b.col - a.col).natAbs ≤ 2
      omega
    · intro h0
      have hba : b = a := pointExt b a (by have := h0.1; omega) (by have := h0.2; omega)
      rw [hba] at hb
      exact ha hb
  · refine pointExt b _ ?_ ?_
    · show b.row = a.row + (b.row - a.row)
      ring
    · show b.col = a.col + (b.col - a.col)
      ring
  · unfold gridIsEmptyAt
    rw [hb]
    rfl
  · show (decide ((b.row - a.row).natAbs ≤ 1) && decide ((b.col - a.col).natAbs ≤ 1)) = true
    simp only [Bool.and_eq_true, decide_eq_true_eq]
    exact ⟨hr, hc⟩

/-- Priorities 3–6 never return an empty candidate list when the position
    has a stone and an empty on-grid square. -/
theorem candidates_general_ne_nil (s : GameState) (hwf : WF s) (hmv : s.moves ≠ [])
    (e : Point) (hoe : isOnGrid e = true) (hee : gridIsEmptyAt s.grid e = true) :
    candidates_general s ≠ [] := by
  obtain ⟨x, hx⟩ := dist1_nonempty s hwf hmv e hoe hee
  have hcand : x ∈ (distSets s.grid (s.moves.map fun m => m.point)).1 ++
      ((distSets s.grid (s.moves.map fun m => m.point)).2.filter fun p =>
        !(decide (p ∈ (distSets s.grid (s.moves.map fun m => m.point)).1))) :=
    List.mem_append_left _ hx
  simp only [candidates_general]
  split
  · rename_i hguard
    intro hnil
    rw [hnil] at hguard
    simp at hguard
  · split
    · rename_i hguard2
      have hne2 : ((distSets s.grid (s.moves.map fun m => m.point)).1 ++
          ((distSets s.grid (s.moves.map fun m => m.point)).2.filter fun p =>
            !(decide (p ∈ (distSets s.grid (s.moves.map fun m => m.point)).1)))).filter
          (fun m => is_winning_placement s m s.current_player.other) ≠ [] := by
        intro h
        rw [h] at hguard2
        simp at hguard2
      obtain ⟨y, hy⟩ := List.exists_mem_of_ne_nil _ hne2
      have hyW := (List.mem_filter.mp hy).2
      have hyE := (is_winning_guards s y s.current_player.other hyW).2
      apply List.ne_nil_of_mem (a := y)
      rw [mem_dedupFirst]
      exact List.mem_filter.mpr ⟨hy, hyE⟩
    · split
      · split
        · rename_i hlen2
          intro hnil
          rw [hnil] at hlen2
          simp at hlen2
        · exact List.ne_nil_of_mem hcand
      · exact List.ne_nil_of_mem hcand

/-- `generate_candidates` never returns an empty list when an empty
    on-grid square exists. -/
theorem generate_candidates_ne_nil (s : GameState) (hwf : WF s)
    (e : Point) (hoe : isOnGrid e = true) (hee : gridIsEmptyAt s.grid e = true) :
    generate_candidates s ≠ [] := by
  unfold generate_candidates
  split
  · simp
  · rename_i hmvne
    split
    · rename_i hguard
      rw [Bool.and_eq_true] at hguard
      intro hnil
      rw [hnil] at hguard
      simp at hguard
    · refine candidates_general_ne_nil s hwf ?_ e hoe hee
      intro h
      exact hmvne (by rw [h]; rfl)

/-- The tail of `select_move` after a fruitless fast path: the
    iterative-deepening loop returns a move from the candidate list and the
    unchanged position. -/
theorem selectFinish_pure (Z : Point → Player → Nat) (Zs : Nat) (depth : Nat)
    (s : GameState) (color : Int) (cands' : List Point) (zr : Nat)
    (hwf : WF s) (hov : s.is_over = false)
    (hleg' : ∀ m ∈ cands', LegalPt s.grid m) (hne' : cands' ≠ []) :
    ∃ m s', ((idLoop Z Zs cands' color zr s (List.range' 1 depth) []
        (List.replicate (depth + 2) [none, none]) [] 0 cands'.head?).bind
        fun r => match r.1 with | some m => some (m, r.2) | none => none) =
      some (m, s') ∧ s' = s ∧ LegalPt s.grid m := by
  have hbm : ∀ m, cands'.head? = some m → m ∈ cands' :=
    fun m hm => List.mem_of_mem_head? (hm ▸ rfl)
  obtain ⟨M, hid, hmem, hsome⟩ := idLoop_pure Z Zs cands' color zr s hwf hov hleg'
    (List.range' 1 depth) [] (List.replicate (depth + 2) [none, none]) [] 0
    cands'.head? hbm
  rw [hid]
  have hMs : M.isSome = true := by
    apply hsome
    cases hc : cands' with
    | nil => exact absurd hc hne'
    | cons a l => rfl
  obtain ⟨m, hm⟩ := Option.isSome_iff_exists.mp hMs
  rw [hm]
  exact ⟨m, s, rfl, rfl, hleg' m (hmem m hm)⟩

theorem order_moves_length (s : GameState) (cands : List Point)
    (tm : Option Point) (ks : List (Option Point)) (hist : Hist) :
    (order_moves s cands tm ks hist).length = cands.length := by
  unfold order_moves
  exact (sortByKey_perm _ _).length_eq

/-- C1: for every well-formed position that is not terminal and has at
    least one empty on-grid intersection, `select_move` succeeds (no
    assertion fires), the returned point is on the grid and empty in the
    input position, and the position handed back is exactly the input
    position — every internal apply was paired with an undo. -/
theorem claim_C1_select_move_legal (Z : Point → Player → Nat) (Zs : Nat)
    (depth : Nat) (s : GameState) (hwf : WF s) (hov : s.is_over = false)
    (hemp : ∃ e, isOnGrid e = true ∧ gridIsEmptyAt s.grid e = true) :
    ∃ m s', select_move Z Zs depth s = some (m, s') ∧ s' = s ∧ LegalPt s.grid m := by
  obtain ⟨e, hoe, hee⟩ := hemp
  have hlegC : ∀ m ∈ generate_candidates s, LegalPt s.grid m := candidates_legal s hwf
  have hneC : generate_candidates s ≠ [] := generate_candidates_ne_nil s hwf e hoe hee
  obtain ⟨r, hfp, hrmem⟩ := fastPath_pure (generate_candidates s) s hwf hov hlegC
  have hlegX : ∀ m ∈ (if 30 < (generate_candidates s).length then
      dedupFirst (((order_moves s (generate_candidates s) none [none, none] []).filter
        fun m => 12000 ≤ move_heuristic s m) ++
        (order_moves s (generate_candidates s) none [none, none] []).take 30)
    else generate_candidates s), LegalPt s.grid m := by
    intro m hm
    split at hm
    · exact hlegC m (order_moves_mem s _ _ _ _ m (capKeep_mem _ _ _ m hm))
    · exact hlegC m hm
  have hneX : (if 30 < (generate_candidates s).length then
      dedupFirst (((order_moves s (generate_candidates s) none [none, none] []).filter
        fun m => 12000 ≤ move_heuristic s m) ++
        (order_moves s (generate_candidates s) none [none, none] []).take 30)
    else generate_candidates s) ≠ [] := by
    split
    · cases hOrd : order_moves s (generate_candidates s) none [none, none] [] with
      | nil =>
        exfalso
        have hL := order_moves_length s (generate_candidates s) none [none, none] []
        rw [hOrd] at hL
        exact hneC (List.length_eq_zero.mp hL.symm)
      | cons a as =>
        apply List.ne_nil_of_mem (a := a)
        rw [mem_dedupFirst]
        apply List.mem_append_right
        rw [show (30 : Nat) = 29 + 1 from rfl, List.take_succ_cons]
        exact List.mem_cons_self _ _
    · exact hneC
  simp only [select_move]
  rw [hfp]
  cases r with
  | some m => exact ⟨m, s, rfl, rfl, hlegC m (hrmem m rfl)⟩
  | none =>
    exact selectFinish_pure Z Zs depth s
      (if s.current_player = Player.black then 1 else -1)
      (if 30 < (generate_candidates s).length then
        dedupFirst (((order_moves s (generate_candidates s) none [none, none] []).filter
          fun m => 12000 ≤ move_heuristic s m) ++
          (order_moves s (generate_candidates s) none [none, none] []).take 30)
      else generate_candidates s)
      (compute_hash Z Zs s) hwf hov hlegX hneX

/-- Witness for C1 at the initial position with a trivial Zobrist table and
    a depth-0 search: the hypotheses hold concretely and `select_move`
    returns a legal move with the position unchanged. -/
theorem claim_C1_witness :
    WF initialState ∧ initialState.is_over = false ∧
      (∃ m s', select_move (fun _ _ => 0) 0 0 initialState = some (m, s') ∧
        s' = initialState ∧ LegalPt initialState.grid m) :=
  ⟨by decide, rfl,
    claim_C1_select_move_legal (fun _ _ => 0) 0 0 initialState (by decide) rfl
      ⟨⟨8, 8⟩, by decide, by decide⟩⟩

end BetaGomoku
